import Mathlib

/-!
Shallow embedding of the research event-stream pipeline in
`src/app/(chat)/api/research/route.ts`, together with proofs about the
claims of the specification.

JavaScript semantics conventions used throughout:
* an optional / possibly-`undefined` field is an `Option`;
* JS truthiness of a number `n` is `n ≠ 0`, of a string `s` is `s ≠ ""`,
  of an optional value is "present and truthy";
* `Map` objects are association lists preserving insertion order, since
  JS `Map` iteration (`Object.fromEntries`) follows insertion order;
* `new Date().toISOString()` is an explicit `now : String` argument;
* a thrown exception is the `Except.error` branch; the only throws the
  embedded code can perform are field accesses on a missing `data`
  object (`event.data.name` when `event.data` is `undefined`).
-/

/-- Research phase enum from `lib/types/research` as used by `route.ts`. -/
inductive ResearchPhase
  | initialization
  | topic_extraction
  | research_brief
  | analysts
  | interviews
  | report
  | completed
deriving DecidableEq

/-- An analyst entry of the session roster (fields copied in `route.ts`
lines 498-504 / 664-670). `esgCategories` is optional upstream. -/
structure Analyst where
  name : String
  role : String
  affiliation : String
  esgFocus : String
  esgCategories : Option (List String)
deriving DecidableEq

/-- One interview transcript message (pushed at `route.ts` 583-588 / 735-740). -/
structure InterviewMessage where
  analystName : String
  role : String
  content : String
  timestamp : String
deriving DecidableEq

/-- A persisted completed search (pushed at `route.ts` 604-609). -/
structure SearchResult where
  tool : String
  query : String
  resultsCount : Nat
  sources : List String
deriving DecidableEq

/-- The session progress record.  `message` is an `Option` because the
code assigns `event.message` directly, which may be `undefined`. -/
structure ProgressState where
  current : Nat
  total : Nat
  message : Option String
deriving DecidableEq

/-- The session error record (`route.ts` 631-634 / 798-801). -/
structure ErrorInfo where
  message : String
  type : String
deriving DecidableEq

/-- The mutable research session state (`route.ts` 81-93).
`interviews` and `sections` are JS `Map`s, modelled as insertion-ordered
association lists. -/
structure ResearchState where
  topic : String
  phase : ResearchPhase
  analysts : List Analyst
  interviews : List (String × List InterviewMessage)
  sections : List (String × String)
  searches : List SearchResult
  progress : ProgressState
  error : Option ErrorInfo
deriving DecidableEq

/-- The initial session state built in `POST` (`route.ts` 81-93). -/
def initialState (topic : String) : ResearchState :=
  { topic := topic
    phase := .initialization
    analysts := []
    interviews := []
    sections := []
    searches := []
    progress := { current := 0, total := 0, message := some "Starting research..." }
    error := none }

/-! ### Event payloads -/

/-- Payload of an analyst event (`event.data` fields read at 499-503). -/
structure AnalystData where
  name : String
  role : String
  affiliation : String
  esgFocus : String
  esgCategories : Option (List String)
deriving DecidableEq

/-- Payload of an interview event.  `metadataRole` models `data.metadata?.role`
and `timestamp` models `data.timestamp`; both are only read on the v5 path. -/
structure InterviewData where
  analystName : String
  status : String
  messagePreview : Option String
  turnNumber : Option Nat
  metadataRole : Option String
  timestamp : Option String
deriving DecidableEq

/-- Payload of a search event (`event.data` fields read at 603-608). -/
structure SearchData where
  tool : String
  query : String
  status : String
  resultsCount : Option Nat
deriving DecidableEq

/-- Payload of a section event (`event.data` fields read at 615). -/
structure SectionData where
  analystName : String
  contentPreview : String
deriving DecidableEq

/-- Payload of an error event (`event.data` fields read at 632-633). -/
structure ErrorData where
  error : String
  errorType : String
deriving DecidableEq

/-- Payload of a v5 progress data part (`data` fields read at 706-712). -/
structure ProgressData where
  current : Option Nat
  total : Option Nat
  message : Option String
  phase : Option ResearchPhase
deriving DecidableEq

/-- A legacy (v4) batch element as consumed by `processResearchEvent`.
For recognized kinds the `data` object may be missing (`Option`),
which makes the field accesses of `processResearchEvent` throw.
The legacy progress event carries its fields at top level
(`event.current`, `event.total`, `event.message`, `event.phase`), which is
what the code reads at 526-534.  The legacy interview event carries
`event.metadata` outside `data`; only its `role` is read (576). -/
inductive REvent
  | analyst (data : Option AnalystData)
  | progress (current total : Option Nat) (message : Option String)
      (phase : Option ResearchPhase)
  | interview (data : Option InterviewData) (metaRole : Option String)
  | search (data : Option SearchData)
  | sectionEv (data : Option SectionData)
  | error (data : Option ErrorData)
  | metadata
  | unknown (tag : String)
deriving DecidableEq

/-- The kind-specific payload of a discrete typed (v5) `data-*` event. -/
inductive V5Data
  | analyst (d : AnalystData)
  | progress (d : ProgressData)
  | interview (d : InterviewData)
  | search (d : SearchData)
  | sectionEv (d : SectionData)
  | error (d : ErrorData)
  | metadata
  | heartbeat (ts : Option String)
  | other (tag : String)
deriving DecidableEq

/-- A discrete typed event `{ type: "data-<kind>", data, id?, transient? }`. -/
structure V5Event where
  data : V5Data
  id : Option String
  transient : Option Bool
deriving DecidableEq

/-! ### Downstream events written to the sink

One constructor per `writer.write` call site; the payload is exactly
what that site writes.  Sites that always set `transient: true` and
sites that never do are distinct constructors, so no separate flag is
needed. -/

inductive JVal
  | null
  | bool (b : Bool)
  | num (n : Nat)
  | str (s : List Char)
  | arr (xs : List JVal)
  | obj (fields : List (List Char × JVal))

inductive OutEvent
  | analystsUpdate (analysts : List Analyst)
  | progressUpdate (progress : ProgressState) (phase : ResearchPhase)
  | progressData (d : ProgressData)
  | interviewStatus (analystName status : String) (turnNumber : Option Nat)
      (messagePreview : Option String) (timestamp : String)
      (metaRole : Option String)
  | interviewsUpdate (interviews : List (String × List InterviewMessage))
  | sectionsUpdate (sections : List (String × String))
  | searchData (d : SearchData)
  | errorUpdate (e : Option ErrorInfo)
  | errorData (d : ErrorData)
  | metadataData
  | textDelta (delta : String) (id : String)
  | errorJson (j : JVal)
  | researchComplete (phase : ResearchPhase) (analysts : List Analyst)
      (interviews : List (String × List InterviewMessage))
      (sections : List (String × String)) (searches : List SearchResult)

/-! ### Small JS helpers -/

/-- JS `x || d` for an optional number (`0` is falsy). -/
def orNum (o : Option Nat) (d : Nat) : Nat :=
  match o with
  | some c => if c = 0 then d else c
  | none => d

/-- JS `x || d` for an optional string (`""` is falsy). -/
def orStr (o : Option String) (d : String) : String :=
  match o with
  | some s => if s = "" then d else s
  | none => d

/-- JS truthiness of an optional string. -/
def strTruthy (o : Option String) : Bool :=
  match o with
  | some s => s ≠ ""
  | none => false

/-- JS truthiness of the `transient` flag. -/
def transientTruthy (o : Option Bool) : Bool :=
  match o with
  | some b => b
  | none => false

/-- `state.analysts.findIndex(a => a.name === analyst.name)` followed by
in-place replacement, else `push` (`route.ts` 507-514 / 673-679):
replace the first entry with the same name, else append. -/
def upsertAnalyst (a : Analyst) : List Analyst → List Analyst
  | [] => [a]
  | x :: xs => if x.name = a.name then a :: xs else x :: upsertAnalyst a xs

/-- JS `Map.get`. -/
def getEntry {α : Type} (k : String) : List (String × α) → Option α
  | [] => none
  | p :: ps => if p.1 = k then some p.2 else getEntry k ps

/-- JS `Map.has`. -/
def hasEntry {α : Type} (k : String) (m : List (String × α)) : Bool :=
  (getEntry k m).isSome

/-- JS `Map.set`: update the existing key in place (insertion order kept),
else append. -/
def setEntry {α : Type} (k : String) (v : α) : List (String × α) → List (String × α)
  | [] => [(k, v)]
  | p :: ps => if p.1 = k then (k, v) :: ps else p :: setEntry k v ps

/-- `if (!map.has(k)) map.set(k, [])` — the lazy transcript creation of
route.ts 568-570 / 722-724. -/
def ensureEntry (k : String) (m : List (String × List InterviewMessage)) :
    List (String × List InterviewMessage) :=
  if hasEntry k m then m else m ++ [(k, [])]

/-- The `Analyst` record both reconcilers build from an analyst payload
(route.ts 498-504 and 664-670 copy the same five fields). -/
def analystOf (d : AnalystData) : Analyst :=
  { name := d.name, role := d.role, affiliation := d.affiliation
    esgFocus := d.esgFocus, esgCategories := d.esgCategories }

/-- Role inference shared by both interview paths: explicit metadata role
if truthy, else `questioning → user`, else `assistant`
(`route.ts` 576-578 and 729-730 compute the same function). -/
def roleFor (metaRole : Option String) (status : String) : String :=
  orStr metaRole (if status = "questioning" then "user" else "assistant")

/-! ### The legacy (v4) reconciler: `processResearchEvent` (route.ts 491-652) -/

def processResearchEvent (event : REvent) (now : String) (state : ResearchState) :
    Except String (ResearchState × List OutEvent) :=
  match event with
  | .analyst data =>
    match data with
    | none => .error "TypeError: cannot read properties of undefined"
    | some d =>
      let analysts' := upsertAnalyst (analystOf d) state.analysts
      .ok ({ state with analysts := analysts' },
           [.analystsUpdate analysts'])
  | .progress current total message phase =>
    let progress' : ProgressState :=
      { current := orNum current state.progress.current
        total := orNum total state.progress.total
        message := message }
    let phase' := match phase with
      | some p => p
      | none => state.phase
    .ok ({ state with progress := progress', phase := phase' },
         [.progressUpdate progress' phase'])
  | .interview data metaRole =>
    match data with
    | none => .error "TypeError: cannot read properties of undefined"
    | some d =>
      let out1 : List OutEvent :=
        [.interviewStatus d.analystName d.status d.turnNumber d.messagePreview now metaRole]
      let ivs1 := ensureEntry d.analystName state.interviews
      match d.messagePreview with
      | some p =>
        if p ≠ "" ∧ d.analystName ≠ "" then
          let msgs := (getEntry d.analystName ivs1).getD []
          let role := roleFor metaRole d.status
          match msgs.getLast? with
          | some m =>
            if m.content ≠ p then
              let ivs2 := setEntry d.analystName
                (msgs ++ [{ analystName := d.analystName, role := role
                            content := p, timestamp := now }]) ivs1
              .ok ({ state with interviews := ivs2 }, out1 ++ [.interviewsUpdate ivs2])
            else
              .ok ({ state with interviews := ivs1 }, out1)
          | none =>
            let ivs2 := setEntry d.analystName
              ([{ analystName := d.analystName, role := role
                  content := p, timestamp := now }]) ivs1
            .ok ({ state with interviews := ivs2 }, out1 ++ [.interviewsUpdate ivs2])
        else
          .ok ({ state with interviews := ivs1 }, out1)
      | none => .ok ({ state with interviews := ivs1 }, out1)
  | .search data =>
    match data with
    | none => .error "TypeError: cannot read properties of undefined"
    | some d =>
      match d.resultsCount with
      | some c =>
        if d.status = "completed" ∧ c ≠ 0 then
          .ok ({ state with searches := state.searches ++
                  [{ tool := d.tool, query := d.query, resultsCount := c, sources := [] }] },
               [])
        else .ok (state, [])
      | none => .ok (state, [])
  | .sectionEv data =>
    match data with
    | none => .error "TypeError: cannot read properties of undefined"
    | some d =>
      let sections' := setEntry d.analystName d.contentPreview state.sections
      .ok ({ state with sections := sections' }, [.sectionsUpdate sections'])
  | .error data =>
    match data with
    | none => .error "TypeError: cannot read properties of undefined"
    | some d =>
      let e : ErrorInfo := { message := d.error, type := d.errorType }
      .ok ({ state with error := some e }, [.errorUpdate (some e)])
  | .metadata => .ok (state, [])
  | .unknown _ => .ok (state, [])

/-! ### The discrete typed (v5) reconciler: `processV5DataPart` (route.ts 654-817) -/

def processV5DataPart (event : V5Event) (now : String) (state : ResearchState) :
    ResearchState × List OutEvent :=
  match event.data with
  | .analyst d =>
    let analysts' := upsertAnalyst (analystOf d) state.analysts
    ({ state with analysts := analysts' },
     if transientTruthy event.transient then [] else [.analystsUpdate analysts'])
  | .progress d =>
    let out : List OutEvent :=
      if transientTruthy event.transient then [.progressData d] else []
    let progress' : ProgressState :=
      { current := orNum d.current state.progress.current
        total := orNum d.total state.progress.total
        message := d.message }
    let phase' := match d.phase with
      | some p => p
      | none => state.phase
    ({ state with progress := progress', phase := phase' }, out)
  | .interview d =>
    let ivs1 := ensureEntry d.analystName state.interviews
    match d.messagePreview with
    | some p =>
      if p ≠ "" then
        let msgs := (getEntry d.analystName ivs1).getD []
        let role := roleFor d.metadataRole d.status
        let ts := orStr d.timestamp now
        match msgs.getLast? with
        | some m =>
          if m.content ≠ p then
            let ivs2 := setEntry d.analystName
              (msgs ++ [{ analystName := d.analystName, role := role
                          content := p, timestamp := ts }]) ivs1
            ({ state with interviews := ivs2 }, [.interviewsUpdate ivs2])
          else
            ({ state with interviews := ivs1 }, [])
        | none =>
          let ivs2 := setEntry d.analystName
            ([{ analystName := d.analystName, role := role
                content := p, timestamp := ts }]) ivs1
          ({ state with interviews := ivs2 }, [.interviewsUpdate ivs2])
      else
        ({ state with interviews := ivs1 }, [])
    | none => ({ state with interviews := ivs1 }, [])
  | .search d =>
    (state, if transientTruthy event.transient then [.searchData d] else [])
  | .sectionEv d =>
    let sections' :=
      if strTruthy event.id then setEntry d.analystName d.contentPreview state.sections
      else state.sections
    ({ state with sections := sections' },
     if transientTruthy event.transient then [] else [.sectionsUpdate sections'])
  | .error d =>
    let out : List OutEvent :=
      if transientTruthy event.transient then [.errorData d] else []
    ({ state with error := some { message := d.error, type := d.errorType } }, out)
  | .metadata =>
    (state, if transientTruthy event.transient then [.metadataData] else [])
  | .heartbeat _ => (state, [])
  | .other _ => (state, [])

/-! ### Raw v5 wire protocol strings (route.ts 410-458)

Raw lines are modelled as `List Char`.  `String.prototype.trim` is
modelled for the common whitespace characters; `JSON.parse` is modelled
by `parseJson` below for the payload subset the upstream emits
(objects, arrays, escape-free strings, nonnegative integers, booleans,
null). -/

def isWsChar (c : Char) : Bool :=
  c = ' ' || c = '\t' || c = '\n' || c = '\r'

/-- `s.trim()`. -/
def trimChars (s : List Char) : List Char :=
  ((s.dropWhile isWsChar).reverse.dropWhile isWsChar).reverse

def skipWs (s : List Char) : List Char := s.dropWhile isWsChar

/-- Body of a JSON string literal after the opening quote; escape
sequences are outside the modelled subset. -/
def parseStrBody : List Char → Option (List Char × List Char)
  | [] => none
  | c :: rest =>
    if c = '"' then some ([], rest)
    else if c = '\\' then none
    else
      match parseStrBody rest with
      | some (s, r) => some (c :: s, r)
      | none => none

def parseDigits (s : List Char) : Option (Nat × List Char) :=
  let ds := s.takeWhile (·.isDigit)
  if ds.isEmpty then none
  else some (ds.foldl (fun n c => n * 10 + (c.toNat - '0'.toNat)) 0,
             s.dropWhile (·.isDigit))

mutual

def parseVal : Nat → List Char → Option (JVal × List Char)
  | 0, _ => none
  | fuel+1, input =>
    match skipWs input with
    | '"' :: rest =>
      match parseStrBody rest with
      | some (a, r) => some (.str a, r)
      | none => none
    | '{' :: rest =>
      match skipWs rest with
      | '}' :: r => some (.obj [], r)
      | r => parseFields fuel r
    | '[' :: rest =>
      match skipWs rest with
      | ']' :: r => some (.arr [], r)
      | r => parseElems fuel r
    | 't' :: 'r' :: 'u' :: 'e' :: r => some (.bool true, r)
    | 'f' :: 'a' :: 'l' :: 's' :: 'e' :: r => some (.bool false, r)
    | 'n' :: 'u' :: 'l' :: 'l' :: r => some (.null, r)
    | s =>
      match parseDigits s with
      | some (n, r) => some (.num n, r)
      | none => none

def parseFields : Nat → List Char → Option (JVal × List Char)
  | 0, _ => none
  | fuel+1, input =>
    match skipWs input with
    | '"' :: rest =>
      match parseStrBody rest with
      | some (k, r1) =>
        match skipWs r1 with
        | ':' :: r2 =>
          match parseVal fuel r2 with
          | some (v, r3) =>
            match skipWs r3 with
            | ',' :: r4 =>
              match parseFields fuel r4 with
              | some (.obj fs, r5) => some (.obj ((k, v) :: fs), r5)
              | _ => none
            | '}' :: r4 => some (.obj [(k, v)], r4)
            | _ => none
          | none => none
        | _ => none
      | none => none
    | _ => none

def parseElems : Nat → List Char → Option (JVal × List Char)
  | 0, _ => none
  | fuel+1, input =>
    match parseVal fuel input with
    | some (v, r) =>
      match skipWs r with
      | ',' :: r2 =>
        match parseElems fuel r2 with
        | some (.arr vs, r3) => some (.arr (v :: vs), r3)
        | _ => none
      | ']' :: r2 => some (.arr [v], r2)
      | _ => none
    | none => none

end

/-- Model of the platform `JSON.parse` on the modelled subset: the whole
input must be one JSON value (surrounding whitespace allowed). -/
def parseJson (s : List Char) : Option JVal :=
  match parseVal (s.length + 1) s with
  | some (v, r) => if (skipWs r).isEmpty then some v else none
  | none => none

def jGet (j : JVal) (k : List Char) : Option JVal :=
  match j with
  | .obj fs => (fs.find? (fun p => p.1 == k)).map (·.2)
  | _ => none

def jStr? : JVal → Option String
  | .str s => some (String.mk s)
  | _ => none

def jNum? : JVal → Option Nat
  | .num n => some n
  | _ => none

def jStrList? : JVal → Option (List String)
  | .arr xs => xs.mapM jStr?
  | _ => none

def jField? (j : JVal) (k : String) : Option JVal := jGet j k.toList

/-- Research phase names as emitted on the wire. -/
def phaseOfString : String → Option ResearchPhase
  | "initialization" => some .initialization
  | "topic_extraction" => some .topic_extraction
  | "research_brief" => some .research_brief
  | "analysts" => some .analysts
  | "interviews" => some .interviews
  | "report" => some .report
  | "completed" => some .completed
  | _ => none

/-- Typed-boundary bridge: builds the kind-specific payload of a
`data-<kind>` part from a parsed JSON object, modelling the dynamic
field accesses `processV5DataPart` performs.  Payloads that lack a field
the code reads into a required position fall outside the typed universe
and yield `none`. -/
def v5DataFromJson (kind : String) (j : JVal) : Option V5Data :=
  if kind = "analyst" then
    match (jField? j "name").bind jStr?, (jField? j "role").bind jStr?,
          (jField? j "affiliation").bind jStr?, (jField? j "esgFocus").bind jStr? with
    | some n, some r, some a, some f =>
      some (.analyst { name := n, role := r, affiliation := a, esgFocus := f
                       esgCategories := (jField? j "esgCategories").bind jStrList? })
    | _, _, _, _ => none
  else if kind = "progress" then
    match (jField? j "phase").bind jStr? with
    | some p =>
      match phaseOfString p with
      | some ph =>
        some (.progress { current := (jField? j "current").bind jNum?
                          total := (jField? j "total").bind jNum?
                          message := (jField? j "message").bind jStr?
                          phase := some ph })
      | none => none
    | none =>
      some (.progress { current := (jField? j "current").bind jNum?
                        total := (jField? j "total").bind jNum?
                        message := (jField? j "message").bind jStr?
                        phase := none })
  else if kind = "interview" then
    match (jField? j "analystName").bind jStr?, (jField? j "status").bind jStr? with
    | some n, some st =>
      some (.interview { analystName := n, status := st
                         messagePreview := (jField? j "messagePreview").bind jStr?
                         turnNumber := (jField? j "turnNumber").bind jNum?
                         metadataRole := (jField? j "metadata").bind (fun m => (jField? m "role").bind jStr?)
                         timestamp := (jField? j "timestamp").bind jStr? })
    | _, _ => none
  else if kind = "search" then
    match (jField? j "tool").bind jStr?, (jField? j "query").bind jStr?,
          (jField? j "status").bind jStr? with
    | some t, some q, some st =>
      some (.search { tool := t, query := q, status := st
                      resultsCount := (jField? j "resultsCount").bind jNum? })
    | _, _, _ => none
  else if kind = "section" then
    match (jField? j "analystName").bind jStr?, (jField? j "contentPreview").bind jStr? with
    | some n, some c => some (.sectionEv { analystName := n, contentPreview := c })
    | _, _ => none
  else if kind = "error" then
    match (jField? j "error").bind jStr?, (jField? j "errorType").bind jStr? with
    | some e, some t => some (.error { error := e, errorType := t })
    | _, _ => none
  else if kind = "metadata" then some .metadata
  else if kind = "heartbeat" then some (.heartbeat ((jField? j "timestamp").bind jStr?))
  else some (.other kind)

def isLineTerm (c : Char) : Bool := c = '\n' || c = '\r'

/-- The regex `^2:([^[]+)\[(.+)\]$` of route.ts 428: after `2:`, a
nonempty name without `[`, then a bracket whose matching closer is the
final character; `.` does not match line terminators. -/
def matchDataPart (s : List Char) : Option (List Char × List Char) :=
  match s with
  | '2' :: ':' :: rest =>
    let name := rest.takeWhile (· ≠ '[')
    match rest.dropWhile (· ≠ '[') with
    | '[' :: body =>
      if name.isEmpty then none
      else
        match body.reverse with
        | ']' :: revInner =>
          let inner := revInner.reverse
          if inner.isEmpty then none
          else if inner.any isLineTerm then none
          else some (name, inner)
        | _ => none
    | _ => none
  | _ => none

/-- The `data-<partName>` payload a raw `2:` line dispatches, if any. -/
def rawDataPart (s : List Char) : Option V5Data :=
  match matchDataPart (trimChars s) with
  | some (partName, jsonData) =>
    match parseJson jsonData with
    | some j => v5DataFromJson (String.mk partName) j
    | none => none
  | none => none

/-- The raw-string branch of `processLangGraphEvent` (route.ts 410-458).
JSON parse failures in the `2:`/`3:` branches are caught locally, so
this branch never throws. -/
def handleRawLine (s : List Char) (now : String) (state : ResearchState) :
    ResearchState × List OutEvent :=
  let trimmed := trimChars s
  match trimmed with
  | '0' :: ':' :: text => (state, [.textDelta (String.mk text) "research-text"])
  | '2' :: ':' :: _ =>
    match rawDataPart s with
    | some d => processV5DataPart { data := d, id := none, transient := none } now state
    | none => (state, [])
  | '3' :: ':' :: payload =>
    match parseJson payload with
    | some j => (state, [.errorJson j])
    | none => (state, [])
  | _ => (state, [])

/-! ### The dispatcher: `processLangGraphEvent` (route.ts 331-489) -/

/-- The shapes an already-JSON-parsed upstream line can take, one
constructor per branch of `processLangGraphEvent`. -/
inductive LGEvent
  | batch (items : List REvent)
  | v5 (e : V5Event)
  | updates
  | messages
  | custom (items : List REvent)
  | raw (s : List Char)
  | textStart (id : Option String)
  | textDeltaEv (delta : Option String) (id : Option String)
  | textEnd (id : Option String)
  | otherObj

/-- The per-batch duplicate-analyst guard of route.ts 353 / 401:
`item.type === 'analyst' && processedAnalystNames.has(item.data?.name)`. -/
def batchSkip (names : List String) (item : REvent) : Bool :=
  match item with
  | .analyst (some d) => names.contains d.name
  | _ => false

/-- The `for (const item of event)` loop over a batch (route.ts 351-359).
A thrown reconciliation error aborts the loop; earlier mutations and
writes are kept, the error propagates as the third component. -/
def runItems (names : List String) (now : String) :
    List REvent → ResearchState → ResearchState × List OutEvent × Option String
  | [], state => (state, [], none)
  | item :: rest, state =>
    if batchSkip names item then runItems names now rest state
    else
      match processResearchEvent item now state with
      | .ok (s', out) =>
        let (s'', out', err) := runItems names now rest s'
        (s'', out ++ out', err)
      | .error msg => (state, [], some msg)

def processLangGraphEvent (event : LGEvent) (now : String) (state : ResearchState) :
    ResearchState × List OutEvent × Option String :=
  let names := state.analysts.map (·.name)
  match event with
  | .batch items => runItems names now items state
  | .v5 e =>
    match e.data with
    | .analyst d =>
      if d.name ≠ "" ∧ names.contains d.name then (state, [], none)
      else
        let (s', out) := processV5DataPart e now state
        (s', out, none)
    | .heartbeat _ => (state, [], none)
    | _ =>
      let (s', out) := processV5DataPart e now state
      (s', out, none)
  | .updates => (state, [], none)
  | .messages => (state, [], none)
  | .custom items => runItems names now items state
  | .raw s =>
    let (s', out) := handleRawLine s now state
    (s', out, none)
  | .textStart _ => (state, [], none)
  | .textDeltaEv delta id =>
    match delta with
    | some d =>
      if d ≠ "" then (state, [.textDelta d (orStr id "research-text")], none)
      else (state, [], none)
    | none => (state, [], none)
  | .textEnd _ => (state, [], none)
  | .otherObj => (state, [], none)

/-! ### Stream lifecycle (route.ts 269-329) -/

/-- The per-line loop of `streamFromLangGraph` (282-294): each parsed
line is processed inside a `try`/`catch`, so a reconciliation error is
swallowed and the next line is processed against the state mutated so
far.  Each line carries its own wall-clock reading. -/
def runLines : List (LGEvent × String) → ResearchState → ResearchState × List OutEvent
  | [], state => (state, [])
  | (e, now) :: rest, state =>
    let (s', out, _err) := processLangGraphEvent e now state
    let (s'', out') := runLines rest s'
    (s'', out ++ out')

/-- `streamFromLangGraph` after the read loop ends (318-328): process
every line, then write exactly one terminal `data-research-complete`
snapshot assembled from the accumulated state. -/
def streamFromLangGraph (lines : List (LGEvent × String)) (state : ResearchState) :
    ResearchState × List OutEvent :=
  let (s', out) := runLines lines state
  (s', out ++ [.researchComplete .completed s'.analysts s'.interviews s'.sections s'.searches])

/-- `true` iff no line of the stream throws a reconciliation error. -/
def errFreeLines : List (LGEvent × String) → ResearchState → Bool
  | [], _ => true
  | (e, now) :: rest, state =>
    let (s', _, err) := processLangGraphEvent e now state
    err.isNone && errFreeLines rest s'

/-! ### The line framer (route.ts 269-280)

`buffer += decode(chunk); const lines = buffer.split('\n');
buffer = lines.pop() || ''` — modelled over decoded characters:
`splitNl` returns the complete lines and the retained final fragment,
exactly `split('\n')` with the last element popped off. -/

def splitNl : List Char → List (List Char) × List Char
  | [] => ([], [])
  | c :: cs =>
    match splitNl cs with
    | (ls, frag) =>
      if c = '\n' then ([] :: ls, frag)
      else
        match ls with
        | [] => ([], c :: frag)
        | l :: ls' => ((c :: l) :: ls', frag)

/-- One iteration of the read loop: append the chunk to the buffer,
yield the complete lines, retain the final fragment. -/
def frameChunk (buffer chunk : List Char) : List (List Char) × List Char :=
  splitNl (buffer ++ chunk)

/-- The whole read loop over a list of chunks. -/
def runChunks : List (List Char) → List Char → List (List Char) × List Char
  | [], buffer => ([], buffer)
  | chunk :: rest, buffer =>
    let (lines1, buf1) := frameChunk buffer chunk
    let (lines2, buf2) := runChunks rest buf1
    (lines1 ++ lines2, buf2)

/-- Reassemble framed lines and the final fragment back into a stream. -/
def recombine (p : List (List Char) × List Char) : List Char :=
  p.1.foldr (fun l acc => l ++ '\n' :: acc) p.2

/-! ### Spec-side measurement functions for the claims -/

/-- The names carried by the Analyst events a single upstream line
normalizes, mirroring the dispatch of `processLangGraphEvent`. -/
def analystNamesOfEvent : LGEvent → List String
  | .batch items =>
    items.filterMap (fun i => match i with | .analyst (some d) => some d.name | _ => none)
  | .custom items =>
    items.filterMap (fun i => match i with | .analyst (some d) => some d.name | _ => none)
  | .v5 e => match e.data with | .analyst d => [d.name] | _ => []
  | .raw s => match rawDataPart s with | some (.analyst d) => [d.name] | _ => []
  | _ => []

def analystNamesOfLines (lines : List (LGEvent × String)) : List String :=
  lines.flatMap (fun p => analystNamesOfEvent p.1)

/-- Recognizer for the terminal snapshot event. -/
def isResearchComplete : OutEvent → Bool
  | .researchComplete _ _ _ _ _ => true
  | _ => false

/-- The transcript stored for a participant (empty if absent). -/
def transcriptOf (s : ResearchState) (name : String) : List InterviewMessage :=
  (getEntry name s.interviews).getD []

/-- Content of the last stored message of a participant's transcript. -/
def lastContentOf (s : ResearchState) (name : String) : Option String :=
  ((transcriptOf s name).getLast?).map (·.content)

/-- Repeated delivery of one legacy event to the reconciler, one
wall-clock reading per delivery (errors are swallowed at line level). -/
def processSeqLegacy (ev : REvent) : List String → ResearchState → ResearchState
  | [], s => s
  | now :: rest, s =>
    match processResearchEvent ev now s with
    | .ok (s', _) => processSeqLegacy ev rest s'
    | .error _ => processSeqLegacy ev rest s

/-- Repeated delivery of one discrete typed event to the v5 reconciler. -/
def processSeqV5 (ev : V5Event) : List String → ResearchState → ResearchState
  | [], s => s
  | now :: rest, s => processSeqV5 ev rest (processV5DataPart ev now s).1

/-! ## Helper lemmas -/

theorem upsertAnalyst_twice (a b : Analyst) (l : List Analyst) (h : a.name = b.name) :
    upsertAnalyst b (upsertAnalyst a l) = upsertAnalyst b l := by
  induction l with
  | nil => simp [upsertAnalyst, ← h]
  | cons x xs ih =>
    by_cases hx : x.name = a.name
    · simp [upsertAnalyst, hx, hx.trans h, ← h]
    · have hxb : x.name ≠ b.name := fun hb => hx (hb.trans h.symm)
      simp [upsertAnalyst, hx, hxb, ih]

theorem upsertAnalyst_names (a : Analyst) (l : List Analyst) :
    (upsertAnalyst a l).map (·.name)
      = if a.name ∈ l.map (·.name) then l.map (·.name)
        else l.map (·.name) ++ [a.name] := by
  induction l with
  | nil => simp [upsertAnalyst]
  | cons x xs ih =>
    by_cases hx : x.name = a.name
    · simp [upsertAnalyst, hx]
    · have hax : a.name ≠ x.name := fun hh => hx hh.symm
      by_cases hm : a.name ∈ xs.map (·.name)
      · simp [upsertAnalyst, hx, ih, hm, hax]
      · simp [upsertAnalyst, hx, ih, hm, hax]

theorem upsertAnalyst_names_nodup (a : Analyst) (l : List Analyst)
    (h : (l.map (·.name)).Nodup) : ((upsertAnalyst a l).map (·.name)).Nodup := by
  rw [upsertAnalyst_names]
  by_cases hm : a.name ∈ l.map (·.name)
  · simpa [hm]
  · simp only [hm, if_false]
    rw [List.nodup_append]
    exact ⟨h, List.nodup_singleton _, by simpa using hm⟩

theorem upsertAnalyst_names_toFinset (a : Analyst) (l : List Analyst) :
    ((upsertAnalyst a l).map (·.name)).toFinset
      = insert a.name (l.map (·.name)).toFinset := by
  rw [upsertAnalyst_names]
  by_cases hm : a.name ∈ l.map (·.name)
  · simp only [hm, if_true]
    have : a.name ∈ (l.map (·.name)).toFinset := by simpa using hm
    rw [Finset.insert_eq_self.mpr this]
  · simp [hm, Finset.insert_eq, Finset.union_comm]

theorem upsertAnalyst_length_of_mem (a : Analyst) (l : List Analyst)
    (h : a.name ∈ l.map (·.name)) :
    (upsertAnalyst a l).length = l.length := by
  induction l with
  | nil => simp at h
  | cons x xs ih =>
    by_cases hx : x.name = a.name
    · simp [upsertAnalyst, hx]
    · have : a.name ∈ xs.map (·.name) := by
        simp only [List.map_cons, List.mem_cons] at h
        rcases h with h1 | h1
        · exact absurd h1 (fun hh => hx hh.symm)
        · exact h1
      simp [upsertAnalyst, hx, ih this]

/-! ## C1 -/

/-- C1 (counterexample): the same search payload
`{status: "completed", resultsCount: 5}` persists a search entry when it
arrives as a legacy batch element but not when it arrives as a discrete
typed event, so the two source shapes do not produce the same resulting
session state for every kind. -/
theorem C1_counterexample :
    (processResearchEvent
        (.search (some { tool := "web", query := "q", status := "completed",
                         resultsCount := some 5 })) "now" (initialState "t")).toOption.map
        (fun r => r.1.searches)
      ≠ some ((processV5DataPart
          { data := .search { tool := "web", query := "q", status := "completed",
                              resultsCount := some 5 },
            id := none, transient := none } "now" (initialState "t")).1.searches) := by
  decide

/-- C1 (amended): for the Analyst kind, with no transient flag set, a
legacy batch element `{type: "analyst", data: d}` and a discrete typed
event `{type: "data-analyst", data: d}` produce exactly the same
resulting session state and the same downstream events; the other kinds
follow divergent paths. -/
theorem C1_analyst_paths_agree (d : AnalystData) (now : String) (s : ResearchState) :
    processResearchEvent (.analyst (some d)) now s
      = .ok (processV5DataPart { data := .analyst d, id := none, transient := none } now s) :=
  rfl

/-! ## C9 -/

/-- C9: a discrete typed Analyst event with `transient: true` still
upserts the roster by name exactly as a non-transient event would, but
writes no `data-analysts` update; the persistent update is written
exactly when the transient flag is absent or false. -/
theorem C9_transient_analyst (d : AnalystData) (id : Option String) (now : String)
    (s : ResearchState) :
    (processV5DataPart { data := .analyst d, id := id, transient := some true } now s).1
        = (processV5DataPart { data := .analyst d, id := id, transient := none } now s).1
      ∧ (processV5DataPart { data := .analyst d, id := id, transient := some true } now s).1.analysts
        = upsertAnalyst (analystOf d) s.analysts
      ∧ (processV5DataPart { data := .analyst d, id := id, transient := some true } now s).2 = []
      ∧ (processV5DataPart { data := .analyst d, id := id, transient := none } now s).2
        = [.analystsUpdate (upsertAnalyst (analystOf d) s.analysts)]
      ∧ (processV5DataPart { data := .analyst d, id := id, transient := some false } now s).2
        = [.analystsUpdate (upsertAnalyst (analystOf d) s.analysts)] :=
  ⟨rfl, rfl, rfl, rfl, rfl⟩

/-! ## C3 -/

/-- C3 (counterexample): a discrete typed Search event with
`status: "completed", resultsCount: 5` produces no entry in `searches`,
so the "regardless of arrival shape" half of the claim fails. -/
theorem C3_counterexample :
    (processV5DataPart
        { data := .search { tool := "tavily", query := "q", status := "completed",
                            resultsCount := some 5 },
          id := none, transient := none } "now" (initialState "t")).1.searches = []
      ∧ (initialState "t").searches = [] :=
  ⟨rfl, rfl⟩

/-- C3 (amended): for a legacy batch Search element, an entry is
appended iff the status is "completed" and a positive resultsCount is
present — in particular "started" never appends and "completed" with 5
results appends exactly one entry — while a discrete typed Search event
never changes `searches` at all. -/
theorem C3_search_persistence (d : SearchData) (now now2 : String) (s : ResearchState)
    (idv : Option String) (tr : Option Bool) :
    ((processResearchEvent (.search (some d)) now s).toOption.map (fun r => r.1.searches)
      = some (s.searches ++ (match d.resultsCount with
          | some c => if d.status = "completed" ∧ c ≠ 0
              then [{ tool := d.tool, query := d.query, resultsCount := c, sources := [] }]
              else []
          | none => [])))
    ∧ (d.status = "started" →
        (processResearchEvent (.search (some d)) now s).toOption.map (fun r => r.1.searches)
          = some s.searches)
    ∧ (d.status = "completed" → d.resultsCount = some 5 →
        (processResearchEvent (.search (some d)) now s).toOption.map (fun r => r.1.searches)
          = some (s.searches
              ++ [{ tool := d.tool, query := d.query, resultsCount := 5, sources := [] }]))
    ∧ (processV5DataPart { data := .search d, id := idv, transient := tr } now2 s).1.searches
        = s.searches := by
  obtain ⟨t, q, st, rc⟩ := d
  refine ⟨?_, ?_, ?_, ?_⟩
  · cases rc with
    | none => simp [processResearchEvent, Except.toOption]
    | some c =>
      by_cases hc : st = "completed" ∧ c ≠ 0
      · simp [processResearchEvent, Except.toOption, hc]
      · simp [processResearchEvent, Except.toOption, hc]
  · intro hst
    subst hst
    cases rc with
    | none => simp [processResearchEvent, Except.toOption]
    | some c => simp [processResearchEvent, Except.toOption]
  · intro hst hrc
    subst hst
    simp only at hrc
    subst hrc
    simp [processResearchEvent, Except.toOption]
  · simp [processV5DataPart]

/-- C3 witness: a started search with 5 results is not persisted. -/
theorem C3_witness :
    (processResearchEvent
        (.search (some { tool := "tavily", query := "q", status := "started",
                         resultsCount := some 5 })) "n" (initialState "t")).toOption.map
        (fun r => r.1.searches)
      = some (initialState "t").searches :=
  (C3_search_persistence
    { tool := "tavily", query := "q", status := "started", resultsCount := some 5 }
    "n" "n" (initialState "t") none none).2.1 rfl

theorem processResearchEvent_ok_analysts (e : REvent) (now : String) (s s' : ResearchState)
    (out : List OutEvent) (h : processResearchEvent e now s = .ok (s', out)) :
    s'.analysts = (match e with
      | .analyst (some d) => upsertAnalyst (analystOf d) s.analysts
      | _ => s.analysts) := by
  cases e with
  | analyst data =>
    cases data with
    | none => simp [processResearchEvent] at h
    | some d =>
      simp only [processResearchEvent, Except.ok.injEq, Prod.mk.injEq] at h
      simp [← h.1]
  | progress c t m p =>
    simp only [processResearchEvent, Except.ok.injEq, Prod.mk.injEq] at h
    simp [← h.1]
  | interview data mr =>
    cases data with
    | none => simp [processResearchEvent] at h
    | some d =>
      simp only [processResearchEvent] at h
      repeat' split at h
      all_goals
        simp only [Except.ok.injEq, Prod.mk.injEq] at h
        simp [← h.1]
  | search data =>
    cases data with
    | none => simp [processResearchEvent] at h
    | some d =>
      simp only [processResearchEvent] at h
      repeat' split at h
      all_goals
        simp only [Except.ok.injEq, Prod.mk.injEq] at h
        simp [← h.1]
  | sectionEv data =>
    cases data with
    | none => simp [processResearchEvent] at h
    | some d =>
      simp only [processResearchEvent, Except.ok.injEq, Prod.mk.injEq] at h
      simp [← h.1]
  | error data =>
    cases data with
    | none => simp [processResearchEvent] at h
    | some d =>
      simp only [processResearchEvent, Except.ok.injEq, Prod.mk.injEq] at h
      simp [← h.1]
  | metadata =>
    simp only [processResearchEvent, Except.ok.injEq, Prod.mk.injEq] at h
    simp [← h.1]
  | unknown tag =>
    simp only [processResearchEvent, Except.ok.injEq, Prod.mk.injEq] at h
    simp [← h.1]

theorem processResearchEvent_ok_names_nodup (e : REvent) (now : String)
    (s s' : ResearchState) (out : List OutEvent)
    (h : processResearchEvent e now s = .ok (s', out))
    (hn : (s.analysts.map (·.name)).Nodup) : (s'.analysts.map (·.name)).Nodup := by
  have hh := processResearchEvent_ok_analysts e now s s' out h
  cases e with
  | analyst data =>
    cases data with
    | none => simp [processResearchEvent] at h
    | some d => rw [hh]; exact upsertAnalyst_names_nodup _ _ hn
  | progress c t m p => rw [hh]; exact hn
  | interview data mr => rw [hh]; exact hn
  | search data => rw [hh]; exact hn
  | sectionEv data => rw [hh]; exact hn
  | error data => rw [hh]; exact hn
  | metadata => rw [hh]; exact hn
  | unknown tag => rw [hh]; exact hn

theorem processV5DataPart_analysts (ev : V5Event) (now : String) (s : ResearchState) :
    (processV5DataPart ev now s).1.analysts = (match ev.data with
      | .analyst d => upsertAnalyst (analystOf d) s.analysts
      | _ => s.analysts) := by
  obtain ⟨data, id, tr⟩ := ev
  cases data
  all_goals simp only [processV5DataPart]
  all_goals repeat' split
  all_goals rfl

theorem matchDataPart_eq_none {s : List Char}
    (h : ∀ rest, s ≠ '2' :: ':' :: rest) : matchDataPart s = none := by
  unfold matchDataPart
  split
  · rename_i rest
    exact absurd rfl (h rest)
  · rfl

theorem handleRawLine_analysts (raw : List Char) (now : String) (st : ResearchState) :
    (handleRawLine raw now st).1.analysts = (match rawDataPart raw with
      | some (.analyst d) => upsertAnalyst (analystOf d) st.analysts
      | _ => st.analysts) := by
  simp only [handleRawLine]
  split
  · rename_i text heq
    have : rawDataPart raw = none := by
      simp [rawDataPart, heq, matchDataPart_eq_none]
    simp [this]
  · rename_i rest heq
    cases hrd : rawDataPart raw with
    | none => simp [hrd]
    | some d =>
      simp only [hrd]
      cases d <;> simp [processV5DataPart_analysts]
  · rename_i payload heq
    have : rawDataPart raw = none := by
      simp [rawDataPart, heq, matchDataPart_eq_none]
    rw [this]
    split <;> rfl
  · rename_i h1 h2 h3
    have : rawDataPart raw = none := by
      simp [rawDataPart, matchDataPart_eq_none (fun rest => h2 rest)]
    rw [this]

theorem runItems_names_nodup (names : List String) (now : String) (items : List REvent)
    (s : ResearchState) (h : (s.analysts.map (·.name)).Nodup) :
    (((runItems names now items s).1.analysts).map (·.name)).Nodup := by
  induction items generalizing s with
  | nil => simpa [runItems]
  | cons item rest ih =>
    by_cases hskip : batchSkip names item
    · simpa [runItems, hskip] using ih s h
    · simp only [runItems, hskip, if_false, Bool.false_eq_true]
      cases hpe : processResearchEvent item now s with
      | error msg => simpa using h
      | ok r =>
        obtain ⟨s1, out1⟩ := r
        simpa using ih s1 (processResearchEvent_ok_names_nodup item now s s1 out1 hpe h)

theorem processLangGraphEvent_names_nodup (e : LGEvent) (now : String) (s : ResearchState)
    (h : (s.analysts.map (·.name)).Nodup) :
    (((processLangGraphEvent e now s).1.analysts).map (·.name)).Nodup := by
  cases e with
  | batch items => simpa [processLangGraphEvent] using runItems_names_nodup _ now items s h
  | custom items => simpa [processLangGraphEvent] using runItems_names_nodup _ now items s h
  | v5 ev =>
    obtain ⟨data, id, tr⟩ := ev
    cases data with
    | analyst d =>
      simp only [processLangGraphEvent]
      split
      · simpa
      · have := processV5DataPart_analysts ⟨.analyst d, id, tr⟩ now s
        simp only [this]
        exact upsertAnalyst_names_nodup _ _ h
    | progress d =>
      have := processV5DataPart_analysts ⟨.progress d, id, tr⟩ now s
      simpa [processLangGraphEvent, this]
    | interview d =>
      have := processV5DataPart_analysts ⟨.interview d, id, tr⟩ now s
      simpa [processLangGraphEvent, this]
    | search d =>
      have := processV5DataPart_analysts ⟨.search d, id, tr⟩ now s
      simpa [processLangGraphEvent, this]
    | sectionEv d =>
      have := processV5DataPart_analysts ⟨.sectionEv d, id, tr⟩ now s
      simpa [processLangGraphEvent, this]
    | error d =>
      have := processV5DataPart_analysts ⟨.error d, id, tr⟩ now s
      simpa [processLangGraphEvent, this]
    | metadata =>
      have := processV5DataPart_analysts ⟨.metadata, id, tr⟩ now s
      simpa [processLangGraphEvent, this]
    | heartbeat ts => simpa [processLangGraphEvent]
    | other tag =>
      have := processV5DataPart_analysts ⟨.other tag, id, tr⟩ now s
      simpa [processLangGraphEvent, this]
  | raw str =>
    simp only [processLangGraphEvent]
    have := handleRawLine_analysts str now s
    simp only [this]
    cases hrd : rawDataPart str with
    | none => simpa
    | some d =>
      cases d
      all_goals simp_all
      all_goals exact upsertAnalyst_names_nodup _ _ h
  | updates => simpa [processLangGraphEvent]
  | messages => simpa [processLangGraphEvent]
  | textStart id => simpa [processLangGraphEvent]
  | textDeltaEv delta id =>
    simp only [processLangGraphEvent]
    repeat' split
    all_goals simpa
  | textEnd id => simpa [processLangGraphEvent]
  | otherObj => simpa [processLangGraphEvent]

theorem runLines_names_nodup (lines : List (LGEvent × String)) (s : ResearchState)
    (h : (s.analysts.map (·.name)).Nodup) :
    (((runLines lines s).1.analysts).map (·.name)).Nodup := by
  induction lines generalizing s with
  | nil => simpa [runLines]
  | cons p rest ih =>
    obtain ⟨e, now⟩ := p
    simp only [runLines]
    exact ih _ (processLangGraphEvent_names_nodup e now s h)

/-! ## C2 -/

/-- C2 (counterexample): two discrete Analyst events with the same name
"A" but different roles, arriving on two successive lines, leave the
roster with the FIRST occurrence's fields — the duplicate-name guard in
`processLangGraphEvent` skips the second event instead of updating in
place with its fields. -/
theorem C2_counterexample :
    (processLangGraphEvent
        (.v5 { data := .analyst { name := "A", role := "R2", affiliation := "X",
                                  esgFocus := "F", esgCategories := none },
               id := none, transient := none }) "t2"
        (processLangGraphEvent
          (.v5 { data := .analyst { name := "A", role := "R1", affiliation := "X",
                                    esgFocus := "F", esgCategories := none },
                 id := none, transient := none }) "t1" (initialState "q")).1).1.analysts
      = [{ name := "A", role := "R1", affiliation := "X", esgFocus := "F",
           esgCategories := none }]
    ∧ ({ name := "A", role := "R1", affiliation := "X", esgFocus := "F",
         esgCategories := none } : Analyst)
      ≠ { name := "A", role := "R2", affiliation := "X", esgFocus := "F",
          esgCategories := none } := by
  decide

/-- C2 (amended): after any sequence of upstream lines no two roster
entries share a name, and the per-kind reconciler itself updates in
place with the second occurrence's fields and never appends for an
existing name; but the dispatcher skips an Analyst event whose (nonempty)
name is already in the roster, so a cross-line duplicate keeps the first
occurrence's fields and leaves the state untouched. -/
theorem C2_analyst_upsert :
    (∀ (q : String) (lines : List (LGEvent × String)),
        (((runLines lines (initialState q)).1.analysts).map (·.name)).Nodup)
    ∧ (∀ (d d' : AnalystData) (now now' : String) (s s1 s2 : ResearchState)
        (out1 out2 : List OutEvent), d'.name = d.name →
        processResearchEvent (.analyst (some d)) now s = .ok (s1, out1) →
        processResearchEvent (.analyst (some d')) now' s1 = .ok (s2, out2) →
        s2.analysts = upsertAnalyst (analystOf d') s.analysts)
    ∧ (∀ (d : AnalystData) (now : String) (s s1 : ResearchState) (out1 : List OutEvent),
        d.name ∈ s.analysts.map (·.name) →
        processResearchEvent (.analyst (some d)) now s = .ok (s1, out1) →
        s1.analysts.length = s.analysts.length)
    ∧ (∀ (d : AnalystData) (id : Option String) (tr : Option Bool) (now : String)
        (s : ResearchState), d.name ≠ "" → d.name ∈ s.analysts.map (·.name) →
        processLangGraphEvent (.v5 { data := .analyst d, id := id, transient := tr }) now s
          = (s, [], none)) := by
  refine ⟨?_, ?_, ?_, ?_⟩
  · intro q lines
    exact runLines_names_nodup lines (initialState q) (by simp [initialState])
  · intro d d' now now' s s1 s2 out1 out2 hname h1 h2
    have e1 := processResearchEvent_ok_analysts _ now s s1 out1 h1
    have e2 := processResearchEvent_ok_analysts _ now' s1 s2 out2 h2
    simp only at e1 e2
    rw [e2, e1]
    exact upsertAnalyst_twice _ _ _ (by simpa [analystOf] using hname.symm)
  · intro d now s s1 out1 hmem h1
    have e1 := processResearchEvent_ok_analysts _ now s s1 out1 h1
    simp only at e1
    rw [e1]
    exact upsertAnalyst_length_of_mem _ _ (by simpa [analystOf] using hmem)
  · intro d id tr now s hne hmem
    obtain ⟨x, hx, hxn⟩ := List.mem_map.mp hmem
    simp [processLangGraphEvent, hne]
    intro hfalse
    exact absurd hxn (hfalse x hx)

/-- C2 witness: a roster already holding name "A" skips a later
discrete Analyst event named "A" entirely. -/
theorem C2_witness :
    processLangGraphEvent
        (.v5 { data := .analyst { name := "A", role := "R2", affiliation := "X",
                                  esgFocus := "F", esgCategories := none },
               id := none, transient := none }) "t"
        { initialState "q" with
            analysts := [{ name := "A", role := "R1", affiliation := "X",
                           esgFocus := "F", esgCategories := none }] }
      = ({ initialState "q" with
            analysts := [{ name := "A", role := "R1", affiliation := "X",
                           esgFocus := "F", esgCategories := none }] }, [], none) :=
  C2_analyst_upsert.2.2.2
    { name := "A", role := "R2", affiliation := "X", esgFocus := "F", esgCategories := none }
    none none "t"
    { initialState "q" with
        analysts := [{ name := "A", role := "R1", affiliation := "X",
                       esgFocus := "F", esgCategories := none }] }
    (by decide) (by decide)

/-! ## C6 -/

/-- C6 (counterexample): a Progress event with `current` present and
`message` absent sets the stored progress message to undefined — the
absent field does NOT remain unchanged, contradicting the claim. -/
theorem C6_counterexample :
    (processResearchEvent (.progress (some 1) none none none) "now"
        (initialState "q")).toOption.map (fun r => r.1.progress.message)
      = some none
    ∧ (initialState "q").progress.message = some "Starting research..." := by
  decide

/-- C6 (amended): a Progress event overwrites `current`/`total` only
when present AND nonzero (JS truthiness), always overwrites `message`
with the event's message (clearing it when absent), updates `phase` iff
the event supplies one, and leaves every other session field unchanged;
the discrete typed path behaves the same on state and emits the raw
payload transiently iff flagged. -/
theorem C6_progress_update :
    (∀ (cur tot : Option Nat) (msg : Option String) (ph : Option ResearchPhase)
        (now : String) (s s' : ResearchState) (out : List OutEvent),
      processResearchEvent (.progress cur tot msg ph) now s = .ok (s', out) →
        s'.progress.current = orNum cur s.progress.current
        ∧ s'.progress.total = orNum tot s.progress.total
        ∧ s'.progress.message = msg
        ∧ s'.phase = (match ph with | some p => p | none => s.phase)
        ∧ s'.analysts = s.analysts ∧ s'.interviews = s.interviews
        ∧ s'.sections = s.sections ∧ s'.searches = s.searches
        ∧ s'.error = s.error ∧ s'.topic = s.topic
        ∧ out = [.progressUpdate s'.progress s'.phase])
    ∧ (∀ (pd : ProgressData) (id : Option String) (tr : Option Bool) (now : String)
        (s : ResearchState),
        (processV5DataPart { data := .progress pd, id := id, transient := tr } now s).1.progress.current
            = orNum pd.current s.progress.current
        ∧ (processV5DataPart { data := .progress pd, id := id, transient := tr } now s).1.progress.total
            = orNum pd.total s.progress.total
        ∧ (processV5DataPart { data := .progress pd, id := id, transient := tr } now s).1.progress.message
            = pd.message
        ∧ (processV5DataPart { data := .progress pd, id := id, transient := tr } now s).1.phase
            = (match pd.phase with | some p => p | none => s.phase)
        ∧ (processV5DataPart { data := .progress pd, id := id, transient := tr } now s).1.analysts
            = s.analysts
        ∧ (processV5DataPart { data := .progress pd, id := id, transient := tr } now s).1.interviews
            = s.interviews
        ∧ (processV5DataPart { data := .progress pd, id := id, transient := tr } now s).1.searches
            = s.searches
        ∧ (processV5DataPart { data := .progress pd, id := id, transient := tr } now s).2
            = (if transientTruthy tr then [.progressData pd] else [])) := by
  constructor
  · intro cur tot msg ph now s s' out h
    simp only [processResearchEvent, Except.ok.injEq, Prod.mk.injEq] at h
    obtain ⟨h1, h2⟩ := h
    subst h1 h2
    refine ⟨rfl, rfl, rfl, rfl, rfl, rfl, rfl, rfl, rfl, rfl, rfl⟩
  · intro pd id tr now s
    refine ⟨rfl, rfl, rfl, rfl, rfl, rfl, rfl, rfl⟩

/-- C6 witness: a Progress event with all fields present at nonzero
values overwrites `current`, `total` and `message` and touches nothing
else. -/
theorem C6_witness :
    ({ initialState "q" with
        progress := { current := 2, total := 3, message := some "m" } } : ResearchState).progress.current
        = orNum (some 2) (initialState "q").progress.current
    ∧ ({ initialState "q" with
        progress := { current := 2, total := 3, message := some "m" } } : ResearchState).progress.total
        = orNum (some 3) (initialState "q").progress.total
    ∧ ({ initialState "q" with
        progress := { current := 2, total := 3, message := some "m" } } : ResearchState).progress.message
        = some "m"
    ∧ ({ initialState "q" with
        progress := { current := 2, total := 3, message := some "m" } } : ResearchState).phase
        = (match (none : Option ResearchPhase) with | some p => p | none => (initialState "q").phase)
    ∧ ({ initialState "q" with
        progress := { current := 2, total := 3, message := some "m" } } : ResearchState).analysts
        = (initialState "q").analysts := by
  have h := C6_progress_update.1 (some 2) (some 3) (some "m") none "n" (initialState "q")
    { initialState "q" with progress := { current := 2, total := 3, message := some "m" } }
    [.progressUpdate { current := 2, total := 3, message := some "m" } .initialization]
    rfl
  exact ⟨h.1, h.2.1, h.2.2.1, h.2.2.2.1, h.2.2.2.2.1⟩

/-! ## C10 -/

/-- C10: in a legacy batch, an element of a recognized kind with a
missing `data` object throws; the throw is caught at the per-line level,
so the mutations of earlier batch elements are kept, the remaining
elements of the same batch line are not processed, and the next input
line is processed normally — while an element with an unrecognized type
is skipped without affecting the rest of its batch. -/
theorem C10_batch_error_containment (d1 d3 : AnalystData) (s : ResearchState)
    (now now2 : String) (l2 : LGEvent) :
    ((processLangGraphEvent
        (.batch [.analyst (some d1), .analyst none, .analyst (some d3)]) now s).1
      = (processLangGraphEvent (.batch [.analyst (some d1)]) now s).1)
    ∧ ((processLangGraphEvent
        (.batch [.analyst (some d1), .analyst none, .analyst (some d3)]) now s).2.1
      = (processLangGraphEvent (.batch [.analyst (some d1)]) now s).2.1)
    ∧ ((processLangGraphEvent
        (.batch [.analyst (some d1), .analyst none, .analyst (some d3)]) now s).2.2).isSome
      = true
    ∧ (processLangGraphEvent (.batch [.analyst (some d1)]) now s).2.2 = none
    ∧ (runLines [(.batch [.analyst (some d1), .analyst none, .analyst (some d3)], now),
                 (l2, now2)] s
        = ((processLangGraphEvent l2 now2
              (processLangGraphEvent
                (.batch [.analyst (some d1), .analyst none, .analyst (some d3)]) now s).1).1,
           (processLangGraphEvent
              (.batch [.analyst (some d1), .analyst none, .analyst (some d3)]) now s).2.1
             ++ (processLangGraphEvent l2 now2
                  (processLangGraphEvent
                    (.batch [.analyst (some d1), .analyst none, .analyst (some d3)]) now s).1).2.1))
    ∧ (processLangGraphEvent (.batch [.unknown "frobnicate", .analyst (some d3)]) now s
        = processLangGraphEvent (.batch [.analyst (some d3)]) now s) := by
  refine ⟨?_, ?_, ?_, ?_, ?_, ?_⟩
  · simp only [processLangGraphEvent, runItems, processResearchEvent, batchSkip]
    split <;> rfl
  · simp only [processLangGraphEvent, runItems, processResearchEvent, batchSkip]
    split <;> rfl
  · simp only [processLangGraphEvent, runItems, processResearchEvent, batchSkip]
    split <;> rfl
  · simp only [processLangGraphEvent, runItems, processResearchEvent, batchSkip]
    split <;> rfl
  · simp [runLines]
  · simp only [processLangGraphEvent, runItems, processResearchEvent, batchSkip]
    split <;> rfl

/-! ## C8 -/

theorem trimChars_marker (c : Char) (t : List Char) (hc : isWsChar c = false)
    (hlast : ∀ x, t.getLast? = some x → isWsChar x = false) :
    trimChars (c :: ':' :: t) = c :: ':' :: t := by
  have h1 : (c :: ':' :: t).dropWhile isWsChar = c :: ':' :: t := by
    simp [List.dropWhile_cons, hc]
  have h2 : (c :: ':' :: t).reverse.dropWhile isWsChar = (c :: ':' :: t).reverse := by
    cases hrev : t.reverse with
    | nil =>
      simp [hrev, List.dropWhile_cons, isWsChar]
    | cons x xs =>
      have hx : isWsChar x = false := by
        apply hlast
        rw [← List.head?_reverse, hrev]
        rfl
      simp [hrev, List.dropWhile_cons, hx]
  unfold trimChars
  rw [h1, h2, List.reverse_reverse]

/-- C8 (counterexample): for the payload `t = "Hello "` the raw line
`"0:Hello "` is trimmed before dispatch, so the forwarded delta is
`"Hello"`, not `t`. -/
theorem C8_counterexample :
    (handleRawLine ("0:Hello ".toList) "now" (initialState "t")).2
      = [.textDelta "Hello" "research-text"]
    ∧ (handleRawLine ("0:Hello ".toList) "now" (initialState "t")).2
      ≠ [.textDelta "Hello " "research-text"] := by
  refine ⟨rfl, ?_⟩
  intro h
  rw [show (handleRawLine ("0:Hello ".toList) "now" (initialState "t")).2
      = [.textDelta "Hello" "research-text"] from rfl] at h
  injection h with h1 _
  injection h1 with h2 _
  exact absurd h2 (by decide)

/-- C8 (amended): a raw token line `"0:" ++ t` forwards a TextDelta with
stream id `research-text` whose delta is the trimmed line after the
marker — equal to `t` whenever `t` has no trailing whitespace; digit `2`
dispatches the bracketed JSON payload as a named data part through the
v5 reconciler, and digit `3` forwards the parsed payload as a transient
error event. -/
theorem C8_raw_token_dispatch :
    (∀ (t : List Char) (now : String) (s : ResearchState),
        (∀ x, t.getLast? = some x → isWsChar x = false) →
        handleRawLine ('0' :: ':' :: t) now s
          = (s, [.textDelta (String.mk t) "research-text"]))
    ∧ (handleRawLine
          ("2:analyst[\x7b\"name\":\"Dr. Chen\",\"role\":\"ESG Lead\",\"affiliation\":\"X\",\"esgFocus\":\"Y\"\x7d]".toList)
          "now" (initialState "t")
        = processV5DataPart
            { data := .analyst { name := "Dr. Chen", role := "ESG Lead", affiliation := "X",
                                 esgFocus := "Y", esgCategories := none },
              id := none, transient := none } "now" (initialState "t"))
    ∧ (handleRawLine ("3:\x7b\"message\":\"boom\"\x7d".toList) "now" (initialState "t")
        = (initialState "t",
           [.errorJson (.obj [("message".toList, .str "boom".toList)])])) := by
  refine ⟨?_, ?_, ?_⟩
  · intro t now s h
    have htrim := trimChars_marker '0' t rfl h
    simp only [handleRawLine, htrim]
  · rfl
  · rfl

/-- C8 witness: the line `"0:Hello"` forwards delta `"Hello"`. -/
theorem C8_witness :
    handleRawLine ('0' :: ':' :: "Hello".toList) "now" (initialState "q")
      = (initialState "q", [.textDelta (String.mk "Hello".toList) "research-text"]) :=
  C8_raw_token_dispatch.1 "Hello".toList "now" (initialState "q")
    (by intro x hx; cases hx; rfl)

/-! ## C7 -/

theorem splitNl_frag_no_nl (s : List Char) : ∀ c ∈ (splitNl s).2, c ≠ '\n' := by
  induction s with
  | nil => intro c hc; simp [splitNl] at hc
  | cons c cs ih =>
    intro x hx
    rcases hs : splitNl cs with ⟨ls, frag⟩
    rw [hs] at ih
    simp only [splitNl, hs] at hx
    by_cases hc : c = '\n'
    · rw [if_pos hc] at hx
      exact ih x (by simpa using hx)
    · rw [if_neg hc] at hx
      cases ls with
      | nil =>
        simp only at hx
        rcases List.mem_cons.mp hx with rfl | hx2
        · exact hc
        · exact ih x (by simpa using hx2)
      | cons l ls' => exact ih x (by simpa using hx)

theorem splitNl_no_nl (s : List Char) (h : ∀ c ∈ s, c ≠ '\n') : splitNl s = ([], s) := by
  induction s with
  | nil => rfl
  | cons c cs ih =>
    have hc : c ≠ '\n' := h c (by simp)
    have ih' := ih (fun x hx => h x (by simp [hx]))
    simp [splitNl, ih', hc]

theorem splitNl_append (a b : List Char) :
    splitNl (a ++ b)
      = ((splitNl a).1 ++ (match (splitNl b).1 with
            | [] => ([] : List (List Char))
            | l :: ls => ((splitNl a).2 ++ l) :: ls),
         match (splitNl b).1 with
            | [] => (splitNl a).2 ++ (splitNl b).2
            | _ :: _ => (splitNl b).2) := by
  induction a with
  | nil =>
    rcases hb : splitNl b with ⟨lb, fb⟩
    cases lb with
    | nil => simp [splitNl, hb]
    | cons l ls => simp [splitNl, hb]
  | cons c a ih =>
    rcases ha : splitNl a with ⟨la, fa⟩
    rcases hb : splitNl b with ⟨lb, fb⟩
    rw [ha, hb] at ih
    simp only [List.cons_append, splitNl, ih, ha, hb]
    by_cases hc : c = '\n'
    · cases lb with
      | nil => simp [hc, ih]
      | cons l ls => simp [hc, ih]
    · cases la with
      | nil =>
        cases lb with
        | nil => simp [hc, ih]
        | cons l ls => simp [hc, ih]
      | cons l0 la' =>
        cases lb with
        | nil => simp [hc, ih]
        | cons l ls => simp [hc, ih]

theorem runChunks_splitNl (chunks : List (List Char)) (buf : List Char)
    (hbuf : ∀ c ∈ buf, c ≠ '\n') :
    runChunks chunks buf = splitNl (buf ++ chunks.flatten) := by
  induction chunks generalizing buf with
  | nil => simp [runChunks, splitNl_no_nl buf hbuf]
  | cons chunk rest ih =>
    have hfrag := splitNl_frag_no_nl (buf ++ chunk)
    have ihr := ih (splitNl (buf ++ chunk)).2 hfrag
    have hfrag' : splitNl (splitNl (buf ++ chunk)).2 = ([], (splitNl (buf ++ chunk)).2) :=
      splitNl_no_nl _ hfrag
    rw [splitNl_append ((splitNl (buf ++ chunk)).2) rest.flatten, hfrag'] at ihr
    simp only [runChunks, frameChunk, List.flatten]
    rw [← List.append_assoc, splitNl_append (buf ++ chunk) rest.flatten]
    rcases h1 : splitNl (buf ++ chunk) with ⟨l1, b1⟩
    rcases h2 : splitNl rest.flatten with ⟨l2, b2⟩
    rw [h1, h2] at ihr
    simp only [h1, h2]
    cases l2 with
    | nil => simp_all
    | cons l2h l2t => simp_all

theorem recombine_splitNl (s : List Char) : recombine (splitNl s) = s := by
  induction s with
  | nil => rfl
  | cons c cs ih =>
    rcases hs : splitNl cs with ⟨ls, frag⟩
    rw [hs] at ih
    simp only [splitNl, hs]
    by_cases hc : c = '\n'
    · simp only [if_pos hc, recombine] at ih ⊢
      simp [List.foldr_cons, ih, hc]
    · cases ls with
      | nil =>
        simp only [if_neg hc, recombine] at ih ⊢
        simpa [ih]
      | cons l ls' =>
        simp only [if_neg hc, recombine] at ih ⊢
        simpa [ih]

/-- C7: the line framer is chunking-invariant — folding any chunk list
through the buffer/split/retain loop yields exactly the lines of the
concatenated stream with the final (possibly partial) fragment retained,
so any two chunkings of the same byte stream yield the same line
sequence, and no line is dropped or duplicated (the emitted lines plus
the retained fragment reassemble the exact input). -/
theorem C7_line_framer :
    (∀ chunks : List (List Char), runChunks chunks [] = splitNl chunks.flatten)
    ∧ (∀ c1 c2 : List (List Char), c1.flatten = c2.flatten → runChunks c1 [] = runChunks c2 [])
    ∧ (∀ chunks : List (List Char), recombine (runChunks chunks []) = chunks.flatten) := by
  have base : ∀ chunks : List (List Char), runChunks chunks [] = splitNl chunks.flatten := by
    intro chunks
    simpa using runChunks_splitNl chunks [] (by simp)
  refine ⟨base, ?_, ?_⟩
  · intro c1 c2 hjoin
    rw [base c1, base c2, hjoin]
  · intro chunks
    rw [base chunks]
    exact recombine_splitNl chunks.flatten

/-- C7 witness: two different chunkings of `"ab\ncd\n"` frame the same
lines. -/
theorem C7_witness :
    runChunks ["ab\nc".toList, "d\n".toList] [] = runChunks ["ab".toList, "\ncd\n".toList] [] :=
  C7_line_framer.2.1 ["ab\nc".toList, "d\n".toList] ["ab".toList, "\ncd\n".toList] rfl

/-! ## C4 -/

theorem getEntry_setEntry_self {α : Type} (k : String) (v : α) (m : List (String × α)) :
    getEntry k (setEntry k v m) = some v := by
  induction m with
  | nil => simp [setEntry, getEntry]
  | cons p ps ih =>
    by_cases hp : p.1 = k
    · simp [setEntry, getEntry, hp]
    · simp [setEntry, getEntry, hp, ih]

theorem getEntry_append_of_none {α : Type} (k : String) (m m2 : List (String × α))
    (h : getEntry k m = none) : getEntry k (m ++ m2) = getEntry k m2 := by
  induction m with
  | nil => simp
  | cons p ps ih =>
    by_cases hp : p.1 = k
    · simp [getEntry, hp] at h
    · simp only [getEntry, hp, if_false] at h
      simp only [List.cons_append, getEntry, hp, if_false]
      exact ih h

theorem getEntry_ensureEntry (k : String) (m : List (String × List InterviewMessage)) :
    (getEntry k (ensureEntry k m)).getD [] = (getEntry k m).getD [] := by
  unfold ensureEntry
  by_cases h : hasEntry k m
  · simp [h]
  · have hnone : getEntry k m = none := by
      unfold hasEntry at h
      exact Option.not_isSome_iff_eq_none.mp (by simpa using h)
    simp [h, getEntry_append_of_none k m _ hnone, hnone, getEntry]

theorem legacy_interview_noappend (d : InterviewData) (mr : Option String) (p : String)
    (now : String) (s : ResearchState)
    (hp : d.messagePreview = some p)
    (hlast : lastContentOf s d.analystName = some p) :
    processResearchEvent (.interview (some d) mr) now s
      = .ok (s, [.interviewStatus d.analystName d.status d.turnNumber (some p) now mr]) := by
  have htr : ∃ m, (transcriptOf s d.analystName).getLast? = some m ∧ m.content = p := by
    unfold lastContentOf at hlast
    rcases hopt : (transcriptOf s d.analystName).getLast? with _ | m
    · rw [hopt] at hlast; simp at hlast
    · rw [hopt] at hlast
      simp at hlast
      exact ⟨m, rfl, hlast⟩
  obtain ⟨m, hm, hmc⟩ := htr
  have hhas : hasEntry d.analystName s.interviews = true := by
    rcases hge : getEntry d.analystName s.interviews with _ | v
    · exfalso
      unfold transcriptOf at hm
      rw [hge] at hm
      simp at hm
    · simp [hasEntry, hge]
  have hens : ensureEntry d.analystName s.interviews = s.interviews := by
    simp [ensureEntry, hhas]
  have hmsgs : ((getEntry d.analystName s.interviews).getD []).getLast? = some m := hm
  simp only [processResearchEvent, hp, hens]
  by_cases hcond : p ≠ "" ∧ d.analystName ≠ ""
  · rw [if_pos hcond, hmsgs]
    simp [hmc]
  · rw [if_neg hcond]

theorem legacy_interview_append (d : InterviewData) (mr : Option String) (p : String)
    (now : String) (s : ResearchState)
    (hp : d.messagePreview = some p) (hpne : p ≠ "") (hname : d.analystName ≠ "")
    (hlast : lastContentOf s d.analystName ≠ some p) :
    processResearchEvent (.interview (some d) mr) now s
      = .ok ({ s with interviews := (setEntry d.analystName
                 (transcriptOf s d.analystName
                   ++ [{ analystName := d.analystName, role := roleFor mr d.status,
                         content := p, timestamp := now }])
                 (ensureEntry d.analystName s.interviews)) },
             [.interviewStatus d.analystName d.status d.turnNumber (some p) now mr,
              .interviewsUpdate (setEntry d.analystName
                 (transcriptOf s d.analystName
                   ++ [{ analystName := d.analystName, role := roleFor mr d.status,
                         content := p, timestamp := now }])
                 (ensureEntry d.analystName s.interviews))]) := by
  have hmsgs : (getEntry d.analystName (ensureEntry d.analystName s.interviews)).getD []
      = transcriptOf s d.analystName := getEntry_ensureEntry _ _
  simp only [processResearchEvent, hp, if_pos (And.intro hpne hname), hmsgs]
  rcases hgl : (transcriptOf s d.analystName).getLast? with _ | m
  · simp only [hgl]
    have hemp : transcriptOf s d.analystName = [] := by
      cases htr : transcriptOf s d.analystName with
      | nil => rfl
      | cons x xs =>
        rw [htr] at hgl
        simp [List.getLast?] at hgl
    rw [hemp]
    simp
  · simp only [hgl]
    have hm : m.content ≠ p := by
      intro hc
      apply hlast
      unfold lastContentOf
      rw [hgl]
      simp [hc]
    rw [if_pos hm]
    rfl

theorem legacy_interview_stable (d : InterviewData) (mr : Option String) (p : String)
    (nows : List String) (s : ResearchState)
    (hp : d.messagePreview = some p)
    (hlast : lastContentOf s d.analystName = some p) :
    processSeqLegacy (.interview (some d) mr) nows s = s := by
  induction nows with
  | nil => rfl
  | cons now rest ih =>
    simp only [processSeqLegacy, legacy_interview_noappend d mr p now s hp hlast]
    exact ih

theorem v5_interview_noappend (d : InterviewData) (id : Option String) (tr : Option Bool)
    (p : String) (now : String) (s : ResearchState)
    (hp : d.messagePreview = some p)
    (hlast : lastContentOf s d.analystName = some p) :
    processV5DataPart { data := .interview d, id := id, transient := tr } now s = (s, []) := by
  have htr : ∃ m, (transcriptOf s d.analystName).getLast? = some m ∧ m.content = p := by
    unfold lastContentOf at hlast
    rcases hopt : (transcriptOf s d.analystName).getLast? with _ | m
    · rw [hopt] at hlast; simp at hlast
    · rw [hopt] at hlast
      simp at hlast
      exact ⟨m, rfl, hlast⟩
  obtain ⟨m, hm, hmc⟩ := htr
  have hhas : hasEntry d.analystName s.interviews = true := by
    rcases hge : getEntry d.analystName s.interviews with _ | v
    · exfalso
      unfold transcriptOf at hm
      rw [hge] at hm
      simp at hm
    · simp [hasEntry, hge]
  have hens : ensureEntry d.analystName s.interviews = s.interviews := by
    simp [ensureEntry, hhas]
  have hmsgs : ((getEntry d.analystName s.interviews).getD []).getLast? = some m := hm
  simp only [processV5DataPart, hp, hens]
  by_cases hcond : p ≠ ""
  · rw [if_pos hcond, hmsgs]
    simp [hmc]
  · rw [if_neg hcond]

theorem v5_interview_append (d : InterviewData) (id : Option String) (tr : Option Bool)
    (p : String) (now : String) (s : ResearchState)
    (hp : d.messagePreview = some p) (hpne : p ≠ "")
    (hlast : lastContentOf s d.analystName ≠ some p) :
    processV5DataPart { data := .interview d, id := id, transient := tr } now s
      = ({ s with interviews := (setEntry d.analystName
             (transcriptOf s d.analystName
               ++ [{ analystName := d.analystName, role := roleFor d.metadataRole d.status,
                     content := p, timestamp := orStr d.timestamp now }])
             (ensureEntry d.analystName s.interviews)) },
         [.interviewsUpdate (setEntry d.analystName
             (transcriptOf s d.analystName
               ++ [{ analystName := d.analystName, role := roleFor d.metadataRole d.status,
                     content := p, timestamp := orStr d.timestamp now }])
             (ensureEntry d.analystName s.interviews))]) := by
  have hmsgs : (getEntry d.analystName (ensureEntry d.analystName s.interviews)).getD []
      = transcriptOf s d.analystName := getEntry_ensureEntry _ _
  simp only [processV5DataPart, hp, if_pos hpne, hmsgs]
  rcases hgl : (transcriptOf s d.analystName).getLast? with _ | m
  · simp only [hgl]
    have hemp : transcriptOf s d.analystName = [] := by
      cases htr : transcriptOf s d.analystName with
      | nil => rfl
      | cons x xs =>
        rw [htr] at hgl
        simp [List.getLast?] at hgl
    rw [hemp]
    simp
  · simp only [hgl]
    have hm : m.content ≠ p := by
      intro hc
      apply hlast
      unfold lastContentOf
      rw [hgl]
      simp [hc]
    rw [if_pos hm]

theorem v5_interview_stable (d : InterviewData) (id : Option String) (tr : Option Bool)
    (p : String) (nows : List String) (s : ResearchState)
    (hp : d.messagePreview = some p)
    (hlast : lastContentOf s d.analystName = some p) :
    processSeqV5 { data := .interview d, id := id, transient := tr } nows s = s := by
  induction nows with
  | nil => rfl
  | cons now rest ih =>
    simp only [processSeqV5, v5_interview_noappend d id tr p now s hp hlast]
    exact ih

/-- C4: for a fixed Interview event with nonempty preview content,
delivering it any number of times in a row appends exactly one message
to that participant's transcript (content-equality dedup against the
last stored message), and the state after n ≥ 1 deliveries equals the
state after the first; moreover when the last stored content already
equals the preview, a delivery leaves the interviews map untouched.
Both the legacy and the discrete typed reconciler satisfy this. -/
theorem C4_interview_dedup :
    (∀ (d : InterviewData) (mr : Option String) (p now0 : String)
        (nows : List String) (s : ResearchState),
      d.messagePreview = some p → p ≠ "" → d.analystName ≠ "" →
      lastContentOf s d.analystName ≠ some p →
      transcriptOf (processSeqLegacy (.interview (some d) mr) (now0 :: nows) s) d.analystName
        = transcriptOf s d.analystName
          ++ [{ analystName := d.analystName, role := roleFor mr d.status,
                content := p, timestamp := now0 }]
      ∧ processSeqLegacy (.interview (some d) mr) (now0 :: nows) s
          = processSeqLegacy (.interview (some d) mr) [now0] s)
    ∧ (∀ (d : InterviewData) (mr : Option String) (p now : String) (s : ResearchState),
      d.messagePreview = some p →
      lastContentOf s d.analystName = some p →
      (processResearchEvent (.interview (some d) mr) now s).toOption.map
          (fun r => r.1.interviews)
        = some s.interviews)
    ∧ (∀ (d : InterviewData) (id : Option String) (tr : Option Bool) (p now0 : String)
        (nows : List String) (s : ResearchState),
      d.messagePreview = some p → p ≠ "" →
      lastContentOf s d.analystName ≠ some p →
      transcriptOf (processSeqV5 { data := .interview d, id := id, transient := tr }
          (now0 :: nows) s) d.analystName
        = transcriptOf s d.analystName
          ++ [{ analystName := d.analystName, role := roleFor d.metadataRole d.status,
                content := p, timestamp := orStr d.timestamp now0 }]
      ∧ processSeqV5 { data := .interview d, id := id, transient := tr } (now0 :: nows) s
          = processSeqV5 { data := .interview d, id := id, transient := tr } [now0] s) := by
  refine ⟨?_, ?_, ?_⟩
  · intro d mr p now0 nows s hp hpne hname hlast
    have hstep := legacy_interview_append d mr p now0 s hp hpne hname hlast
    have h1 : processSeqLegacy (.interview (some d) mr) (now0 :: nows) s
        = processSeqLegacy (.interview (some d) mr) nows
            { s with interviews := (setEntry d.analystName
                 (transcriptOf s d.analystName
                   ++ [{ analystName := d.analystName, role := roleFor mr d.status,
                         content := p, timestamp := now0 }])
                 (ensureEntry d.analystName s.interviews)) } := by
      simp only [processSeqLegacy, hstep]
    have htr1 : transcriptOf
        { s with interviews := (setEntry d.analystName
             (transcriptOf s d.analystName
               ++ [{ analystName := d.analystName, role := roleFor mr d.status,
                     content := p, timestamp := now0 }])
             (ensureEntry d.analystName s.interviews)) } d.analystName
        = transcriptOf s d.analystName
          ++ [{ analystName := d.analystName, role := roleFor mr d.status,
                content := p, timestamp := now0 }] := by
      unfold transcriptOf
      simp [getEntry_setEntry_self]
    have hl1 : lastContentOf
        { s with interviews := (setEntry d.analystName
             (transcriptOf s d.analystName
               ++ [{ analystName := d.analystName, role := roleFor mr d.status,
                     content := p, timestamp := now0 }])
             (ensureEntry d.analystName s.interviews)) } d.analystName = some p := by
      unfold lastContentOf
      rw [htr1]
      simp
    have hstable := legacy_interview_stable d mr p nows _ hp hl1
    constructor
    · rw [h1, hstable, htr1]
    · rw [h1, hstable]
      simp only [processSeqLegacy, hstep]
  · intro d mr p now s hp hlast
    rw [legacy_interview_noappend d mr p now s hp hlast]
    rfl
  · intro d id tr p now0 nows s hp hpne hlast
    have hstep := v5_interview_append d id tr p now0 s hp hpne hlast
    have h1 : processSeqV5 { data := .interview d, id := id, transient := tr } (now0 :: nows) s
        = processSeqV5 { data := .interview d, id := id, transient := tr } nows
            { s with interviews := (setEntry d.analystName
                 (transcriptOf s d.analystName
                   ++ [{ analystName := d.analystName, role := roleFor d.metadataRole d.status,
                         content := p, timestamp := orStr d.timestamp now0 }])
                 (ensureEntry d.analystName s.interviews)) } := by
      simp only [processSeqV5, hstep]
    have htr1 : transcriptOf
        { s with interviews := (setEntry d.analystName
             (transcriptOf s d.analystName
               ++ [{ analystName := d.analystName, role := roleFor d.metadataRole d.status,
                     content := p, timestamp := orStr d.timestamp now0 }])
             (ensureEntry d.analystName s.interviews)) } d.analystName
        = transcriptOf s d.analystName
          ++ [{ analystName := d.analystName, role := roleFor d.metadataRole d.status,
                content := p, timestamp := orStr d.timestamp now0 }] := by
      unfold transcriptOf
      simp [getEntry_setEntry_self]
    have hl1 : lastContentOf
        { s with interviews := (setEntry d.analystName
             (transcriptOf s d.analystName
               ++ [{ analystName := d.analystName, role := roleFor d.metadataRole d.status,
                     content := p, timestamp := orStr d.timestamp now0 }])
             (ensureEntry d.analystName s.interviews)) } d.analystName = some p := by
      unfold lastContentOf
      rw [htr1]
      simp
    have hstable := v5_interview_stable d id tr p nows _ hp hl1
    constructor
    · rw [h1, hstable, htr1]
    · rw [h1, hstable]
      simp only [processSeqV5, hstep]

/-- C4 witness: delivering the same questioning event twice appends one
"Q1" message to analyst "A"'s transcript. -/
theorem C4_witness :
    transcriptOf (processSeqLegacy
        (.interview (some { analystName := "A", status := "questioning",
                            messagePreview := some "Q1", turnNumber := none,
                            metadataRole := none, timestamp := none }) none)
        ["t1", "t2"] (initialState "q")) "A"
      = transcriptOf (initialState "q") "A"
        ++ [{ analystName := "A", role := roleFor none "questioning",
              content := "Q1", timestamp := "t1" }]
    ∧ processSeqLegacy
        (.interview (some { analystName := "A", status := "questioning",
                            messagePreview := some "Q1", turnNumber := none,
                            metadataRole := none, timestamp := none }) none)
        ["t1", "t2"] (initialState "q")
      = processSeqLegacy
        (.interview (some { analystName := "A", status := "questioning",
                            messagePreview := some "Q1", turnNumber := none,
                            metadataRole := none, timestamp := none }) none)
        ["t1"] (initialState "q") :=
  C4_interview_dedup.1
    { analystName := "A", status := "questioning", messagePreview := some "Q1",
      turnNumber := none, metadataRole := none, timestamp := none }
    none "Q1" "t1" ["t2"] (initialState "q") rfl (by decide) (by decide) (by decide)

/-! ## C5 -/

theorem runItems_cons (names : List String) (now : String) (item : REvent)
    (rest : List REvent) (s : ResearchState) :
    runItems names now (item :: rest) s
      = if batchSkip names item then runItems names now rest s
        else match processResearchEvent item now s with
          | .ok (s1, out1) =>
            ((runItems names now rest s1).1,
             out1 ++ (runItems names now rest s1).2.1,
             (runItems names now rest s1).2.2)
          | .error msg => (s, [], some msg) := by
  simp only [runItems]

theorem processResearchEvent_no_complete (e : REvent) (now : String) (s s' : ResearchState)
    (out : List OutEvent) (h : processResearchEvent e now s = .ok (s', out)) :
    out.countP isResearchComplete = 0 := by
  cases e with
  | analyst data =>
    cases data with
    | none => simp [processResearchEvent] at h
    | some d =>
      simp only [processResearchEvent, Except.ok.injEq, Prod.mk.injEq] at h
      rw [← h.2]
      simp [isResearchComplete]
  | progress c t m p =>
    simp only [processResearchEvent, Except.ok.injEq, Prod.mk.injEq] at h
    rw [← h.2]
    simp [isResearchComplete]
  | interview data mr =>
    cases data with
    | none => simp [processResearchEvent] at h
    | some d =>
      simp only [processResearchEvent] at h
      repeat' split at h
      all_goals
        simp only [Except.ok.injEq, Prod.mk.injEq] at h
        rw [← h.2]
        simp [isResearchComplete]
  | search data =>
    cases data with
    | none => simp [processResearchEvent] at h
    | some d =>
      simp only [processResearchEvent] at h
      repeat' split at h
      all_goals
        simp only [Except.ok.injEq, Prod.mk.injEq] at h
        rw [← h.2]
        simp [isResearchComplete]
  | sectionEv data =>
    cases data with
    | none => simp [processResearchEvent] at h
    | some d =>
      simp only [processResearchEvent, Except.ok.injEq, Prod.mk.injEq] at h
      rw [← h.2]
      simp [isResearchComplete]
  | error data =>
    cases data with
    | none => simp [processResearchEvent] at h
    | some d =>
      simp only [processResearchEvent, Except.ok.injEq, Prod.mk.injEq] at h
      rw [← h.2]
      simp [isResearchComplete]
  | metadata =>
    simp only [processResearchEvent, Except.ok.injEq, Prod.mk.injEq] at h
    rw [← h.2]
    simp
  | unknown tag =>
    simp only [processResearchEvent, Except.ok.injEq, Prod.mk.injEq] at h
    rw [← h.2]
    simp

theorem processV5DataPart_no_complete (ev : V5Event) (now : String) (s : ResearchState) :
    (processV5DataPart ev now s).2.countP isResearchComplete = 0 := by
  obtain ⟨data, id, tr⟩ := ev
  cases data
  all_goals simp only [processV5DataPart]
  all_goals repeat' split
  all_goals simp [isResearchComplete]

theorem handleRawLine_no_complete (raw : List Char) (now : String) (st : ResearchState) :
    (handleRawLine raw now st).2.countP isResearchComplete = 0 := by
  simp only [handleRawLine]
  split
  · simp [isResearchComplete]
  · split
    · exact processV5DataPart_no_complete _ now st
    · simp
  · split
    · simp [isResearchComplete]
    · simp
  · simp

theorem runItems_no_complete (names : List String) (now : String) (items : List REvent)
    (s : ResearchState) :
    (runItems names now items s).2.1.countP isResearchComplete = 0 := by
  induction items generalizing s with
  | nil => simp [runItems]
  | cons item rest ih =>
    rw [runItems_cons]
    split
    · exact ih s
    · cases hpe : processResearchEvent item now s with
      | ok r =>
        obtain ⟨s1, out1⟩ := r
        simp only [List.countP_append]
        rw [processResearchEvent_no_complete item now s s1 out1 hpe, ih s1]
      | error msg => simp

theorem processLangGraphEvent_no_complete (e : LGEvent) (now : String) (s : ResearchState) :
    (processLangGraphEvent e now s).2.1.countP isResearchComplete = 0 := by
  cases e with
  | batch items => exact runItems_no_complete _ now items s
  | custom items => exact runItems_no_complete _ now items s
  | v5 ev =>
    obtain ⟨data, id, tr⟩ := ev
    cases data
    all_goals simp only [processLangGraphEvent]
    all_goals repeat' split
    all_goals
      first
        | exact processV5DataPart_no_complete _ now s
        | simp
  | raw str =>
    simp only [processLangGraphEvent]
    exact handleRawLine_no_complete str now s
  | updates => simp [processLangGraphEvent]
  | messages => simp [processLangGraphEvent]
  | textStart id => simp [processLangGraphEvent]
  | textDeltaEv delta id =>
    simp only [processLangGraphEvent]
    repeat' split
    all_goals simp [isResearchComplete]
  | textEnd id => simp [processLangGraphEvent]
  | otherObj => simp [processLangGraphEvent]

theorem runLines_no_complete (lines : List (LGEvent × String)) (s : ResearchState) :
    (runLines lines s).2.countP isResearchComplete = 0 := by
  induction lines generalizing s with
  | nil => simp [runLines]
  | cons p rest ih =>
    obtain ⟨e, now⟩ := p
    simp only [runLines, List.countP_append]
    rw [processLangGraphEvent_no_complete e now s, ih]

theorem runItems_names_toFinset (names : List String) (now : String) (items : List REvent)
    (s : ResearchState)
    (herr : (runItems names now items s).2.2 = none)
    (hsub : names.toFinset ⊆ (s.analysts.map (·.name)).toFinset) :
    (((runItems names now items s).1.analysts).map (·.name)).toFinset
      = (s.analysts.map (·.name)).toFinset
        ∪ (items.filterMap (fun i => match i with
            | .analyst (some d) => some d.name | _ => none)).toFinset := by
  induction items generalizing s with
  | nil => simp [runItems]
  | cons item rest ih =>
    rw [runItems_cons] at herr ⊢
    by_cases hskip : batchSkip names item
    · rw [if_pos hskip] at herr ⊢
      cases item with
      | analyst data =>
        cases data with
        | some d =>
          have hmem : d.name ∈ names := by
            simpa [batchSkip] using hskip
          have hd : d.name ∈ (s.analysts.map (·.name)).toFinset :=
            hsub (by simpa using hmem)
          rw [ih s herr hsub]
          simp only [List.filterMap_cons]
          rw [List.toFinset_cons]
          rw [Finset.union_insert, Finset.insert_eq_self.mpr (Finset.mem_union_left _ hd)]
        | none => simp [batchSkip] at hskip
      | progress c t m p => simp [batchSkip] at hskip
      | interview data mr => simp [batchSkip] at hskip
      | search data => simp [batchSkip] at hskip
      | sectionEv data => simp [batchSkip] at hskip
      | error data => simp [batchSkip] at hskip
      | metadata => simp [batchSkip] at hskip
      | unknown tag => simp [batchSkip] at hskip
    · rw [if_neg hskip] at herr ⊢
      cases hpe : processResearchEvent item now s with
      | error msg =>
        rw [hpe] at herr
        simp at herr
      | ok r =>
        obtain ⟨s1, out1⟩ := r
        rw [hpe] at herr
        simp only at herr ⊢
        have hana := processResearchEvent_ok_analysts item now s s1 out1 hpe
        cases item with
        | analyst data =>
          cases data with
          | none => simp [processResearchEvent] at hpe
          | some d =>
            have hana' : s1.analysts = upsertAnalyst (analystOf d) s.analysts := hana
            have h1 : (s1.analysts.map (·.name)).toFinset
                = insert d.name (s.analysts.map (·.name)).toFinset := by
              rw [hana']
              exact upsertAnalyst_names_toFinset _ _
            have hsub1 : names.toFinset ⊆ (s1.analysts.map (·.name)).toFinset := by
              rw [h1]
              exact hsub.trans (Finset.subset_insert _ _)
            rw [ih s1 herr hsub1, h1]
            simp only [List.filterMap_cons]
            rw [List.toFinset_cons]
            rw [Finset.insert_union, Finset.union_insert]
        | progress c t m p =>
          have hana' : s1.analysts = s.analysts := hana
          have hsub1 : names.toFinset ⊆ (s1.analysts.map (·.name)).toFinset := by
            rw [hana']; exact hsub
          rw [ih s1 herr hsub1, hana']
          simp [List.filterMap_cons]
        | interview data mr =>
          have hana' : s1.analysts = s.analysts := hana
          have hsub1 : names.toFinset ⊆ (s1.analysts.map (·.name)).toFinset := by
            rw [hana']; exact hsub
          rw [ih s1 herr hsub1, hana']
          simp [List.filterMap_cons]
        | search data =>
          have hana' : s1.analysts = s.analysts := hana
          have hsub1 : names.toFinset ⊆ (s1.analysts.map (·.name)).toFinset := by
            rw [hana']; exact hsub
          rw [ih s1 herr hsub1, hana']
          simp [List.filterMap_cons]
        | sectionEv data =>
          have hana' : s1.analysts = s.analysts := hana
          have hsub1 : names.toFinset ⊆ (s1.analysts.map (·.name)).toFinset := by
            rw [hana']; exact hsub
          rw [ih s1 herr hsub1, hana']
          simp [List.filterMap_cons]
        | error data =>
          have hana' : s1.analysts = s.analysts := hana
          have hsub1 : names.toFinset ⊆ (s1.analysts.map (·.name)).toFinset := by
            rw [hana']; exact hsub
          rw [ih s1 herr hsub1, hana']
          simp [List.filterMap_cons]
        | metadata =>
          have hana' : s1.analysts = s.analysts := hana
          have hsub1 : names.toFinset ⊆ (s1.analysts.map (·.name)).toFinset := by
            rw [hana']; exact hsub
          rw [ih s1 herr hsub1, hana']
          simp [List.filterMap_cons]
        | unknown tag =>
          have hana' : s1.analysts = s.analysts := hana
          have hsub1 : names.toFinset ⊆ (s1.analysts.map (·.name)).toFinset := by
            rw [hana']; exact hsub
          rw [ih s1 herr hsub1, hana']
          simp [List.filterMap_cons]

theorem processLangGraphEvent_names_toFinset (e : LGEvent) (now : String) (s : ResearchState)
    (herr : (processLangGraphEvent e now s).2.2 = none) :
    (((processLangGraphEvent e now s).1.analysts).map (·.name)).toFinset
      = (s.analysts.map (·.name)).toFinset ∪ (analystNamesOfEvent e).toFinset := by
  cases e with
  | batch items =>
    exact runItems_names_toFinset _ now items s herr (Finset.Subset.refl _)
  | custom items =>
    exact runItems_names_toFinset _ now items s herr (Finset.Subset.refl _)
  | v5 ev =>
    obtain ⟨data, id, tr⟩ := ev
    cases data with
    | analyst d =>
      simp only [processLangGraphEvent]
      split
      · rename_i hcond
        obtain ⟨hne, hcont⟩ := hcond
        have hd : d.name ∈ (s.analysts.map (·.name)).toFinset := by
          simp only [List.mem_toFinset]
          simpa using hcont
        simp only [analystNamesOfEvent]
        rw [show ((s, ([] : List OutEvent), (none : Option String)).1.analysts) = s.analysts
            from rfl]
        exact (Finset.union_eq_left.mpr (by simpa using hd)).symm
      · have hv5 : (processV5DataPart ⟨.analyst d, id, tr⟩ now s).1.analysts
            = upsertAnalyst (analystOf d) s.analysts :=
          processV5DataPart_analysts ⟨.analyst d, id, tr⟩ now s
        show ((processV5DataPart ⟨.analyst d, id, tr⟩ now s).1.analysts.map (·.name)).toFinset
          = _
        rw [hv5, upsertAnalyst_names_toFinset]
        simp [analystNamesOfEvent, analystOf, Finset.insert_eq, Finset.union_comm]
    | progress d =>
      have hv5 : (processV5DataPart ⟨.progress d, id, tr⟩ now s).1.analysts = s.analysts :=
        processV5DataPart_analysts ⟨.progress d, id, tr⟩ now s
      show ((processV5DataPart ⟨.progress d, id, tr⟩ now s).1.analysts.map (·.name)).toFinset = _
      rw [hv5]
      simp [analystNamesOfEvent]
    | interview d =>
      have hv5 : (processV5DataPart ⟨.interview d, id, tr⟩ now s).1.analysts = s.analysts :=
        processV5DataPart_analysts ⟨.interview d, id, tr⟩ now s
      show ((processV5DataPart ⟨.interview d, id, tr⟩ now s).1.analysts.map (·.name)).toFinset = _
      rw [hv5]
      simp [analystNamesOfEvent]
    | search d =>
      have hv5 : (processV5DataPart ⟨.search d, id, tr⟩ now s).1.analysts = s.analysts :=
        processV5DataPart_analysts ⟨.search d, id, tr⟩ now s
      show ((processV5DataPart ⟨.search d, id, tr⟩ now s).1.analysts.map (·.name)).toFinset = _
      rw [hv5]
      simp [analystNamesOfEvent]
    | sectionEv d =>
      have hv5 : (processV5DataPart ⟨.sectionEv d, id, tr⟩ now s).1.analysts = s.analysts :=
        processV5DataPart_analysts ⟨.sectionEv d, id, tr⟩ now s
      show ((processV5DataPart ⟨.sectionEv d, id, tr⟩ now s).1.analysts.map (·.name)).toFinset = _
      rw [hv5]
      simp [analystNamesOfEvent]
    | error d =>
      have hv5 : (processV5DataPart ⟨.error d, id, tr⟩ now s).1.analysts = s.analysts :=
        processV5DataPart_analysts ⟨.error d, id, tr⟩ now s
      show ((processV5DataPart ⟨.error d, id, tr⟩ now s).1.analysts.map (·.name)).toFinset = _
      rw [hv5]
      simp [analystNamesOfEvent]
    | metadata =>
      have hv5 : (processV5DataPart ⟨.metadata, id, tr⟩ now s).1.analysts = s.analysts :=
        processV5DataPart_analysts ⟨.metadata, id, tr⟩ now s
      show ((processV5DataPart ⟨.metadata, id, tr⟩ now s).1.analysts.map (·.name)).toFinset = _
      rw [hv5]
      simp [analystNamesOfEvent]
    | heartbeat ts => simp [processLangGraphEvent, analystNamesOfEvent]
    | other tag =>
      have hv5 : (processV5DataPart ⟨.other tag, id, tr⟩ now s).1.analysts = s.analysts :=
        processV5DataPart_analysts ⟨.other tag, id, tr⟩ now s
      show ((processV5DataPart ⟨.other tag, id, tr⟩ now s).1.analysts.map (·.name)).toFinset = _
      rw [hv5]
      simp [analystNamesOfEvent]
  | raw str =>
    have hh := handleRawLine_analysts str now s
    cases hrd : rawDataPart str with
    | none =>
      rw [hrd] at hh
      simp only at hh
      show ((handleRawLine str now s).1.analysts.map (·.name)).toFinset = _
      rw [hh]
      simp [analystNamesOfEvent, hrd]
    | some d =>
      cases d with
      | analyst a =>
        rw [hrd] at hh
        simp only at hh
        show ((handleRawLine str now s).1.analysts.map (·.name)).toFinset = _
        rw [hh, upsertAnalyst_names_toFinset]
        simp [analystNamesOfEvent, analystOf, hrd, Finset.insert_eq, Finset.union_comm]
      | progress a =>
        rw [hrd] at hh
        simp only at hh
        show ((handleRawLine str now s).1.analysts.map (·.name)).toFinset = _
        rw [hh]
        simp [analystNamesOfEvent, hrd]
      | interview a =>
        rw [hrd] at hh
        simp only at hh
        show ((handleRawLine str now s).1.analysts.map (·.name)).toFinset = _
        rw [hh]
        simp [analystNamesOfEvent, hrd]
      | search a =>
        rw [hrd] at hh
        simp only at hh
        show ((handleRawLine str now s).1.analysts.map (·.name)).toFinset = _
        rw [hh]
        simp [analystNamesOfEvent, hrd]
      | sectionEv a =>
        rw [hrd] at hh
        simp only at hh
        show ((handleRawLine str now s).1.analysts.map (·.name)).toFinset = _
        rw [hh]
        simp [analystNamesOfEvent, hrd]
      | error a =>
        rw [hrd] at hh
        simp only at hh
        show ((handleRawLine str now s).1.analysts.map (·.name)).toFinset = _
        rw [hh]
        simp [analystNamesOfEvent, hrd]
      | metadata =>
        rw [hrd] at hh
        simp only at hh
        show ((handleRawLine str now s).1.analysts.map (·.name)).toFinset = _
        rw [hh]
        simp [analystNamesOfEvent, hrd]
      | heartbeat ts =>
        rw [hrd] at hh
        simp only at hh
        show ((handleRawLine str now s).1.analysts.map (·.name)).toFinset = _
        rw [hh]
        simp [analystNamesOfEvent, hrd]
      | other tag =>
        rw [hrd] at hh
        simp only at hh
        show ((handleRawLine str now s).1.analysts.map (·.name)).toFinset = _
        rw [hh]
        simp [analystNamesOfEvent, hrd]
  | updates => simp [processLangGraphEvent, analystNamesOfEvent]
  | messages => simp [processLangGraphEvent, analystNamesOfEvent]
  | textStart id => simp [processLangGraphEvent, analystNamesOfEvent]
  | textDeltaEv delta id =>
    simp only [processLangGraphEvent, analystNamesOfEvent]
    repeat' split
    all_goals simp
  | textEnd id => simp [processLangGraphEvent, analystNamesOfEvent]
  | otherObj => simp [processLangGraphEvent, analystNamesOfEvent]

theorem runLines_names_toFinset (lines : List (LGEvent × String)) (s : ResearchState)
    (hfree : errFreeLines lines s = true) :
    (((runLines lines s).1.analysts).map (·.name)).toFinset
      = (s.analysts.map (·.name)).toFinset ∪ (analystNamesOfLines lines).toFinset := by
  induction lines generalizing s with
  | nil => simp [runLines, analystNamesOfLines]
  | cons p rest ih =>
    obtain ⟨e, now⟩ := p
    simp only [errFreeLines] at hfree
    rw [Bool.and_eq_true_iff] at hfree
    have h1 : (processLangGraphEvent e now s).2.2 = none :=
      Option.isNone_iff_eq_none.mp hfree.1
    have h2 : errFreeLines rest (processLangGraphEvent e now s).1 = true := hfree.2
    show (((runLines rest (processLangGraphEvent e now s).1).1.analysts).map (·.name)).toFinset
      = _
    rw [ih _ h2, processLangGraphEvent_names_toFinset e now s h1]
    simp only [analystNamesOfLines, List.flatMap_cons, List.toFinset_append]
    rw [Finset.union_assoc]

/-- C5: on normal termination the stream emits exactly one terminal
research-complete event; it is the last output, carries phase completed
and the accumulated roster, transcripts, sections and searches read
directly from the session state, and its analyst count equals the number
of distinct names seen across all normalized Analyst events. -/
theorem C5_terminal_snapshot (q : String) (lines : List (LGEvent × String))
    (hfree : errFreeLines lines (initialState q) = true) :
    ((streamFromLangGraph lines (initialState q)).2.countP isResearchComplete = 1)
    ∧ ((streamFromLangGraph lines (initialState q)).2.getLast?
        = some (.researchComplete .completed
            (streamFromLangGraph lines (initialState q)).1.analysts
            (streamFromLangGraph lines (initialState q)).1.interviews
            (streamFromLangGraph lines (initialState q)).1.sections
            (streamFromLangGraph lines (initialState q)).1.searches))
    ∧ ((streamFromLangGraph lines (initialState q)).1.analysts.length
        = (analystNamesOfLines lines).dedup.length) := by
  have hsfl : streamFromLangGraph lines (initialState q)
      = ((runLines lines (initialState q)).1,
         (runLines lines (initialState q)).2
           ++ [.researchComplete .completed (runLines lines (initialState q)).1.analysts
                (runLines lines (initialState q)).1.interviews
                (runLines lines (initialState q)).1.sections
                (runLines lines (initialState q)).1.searches]) := rfl
  refine ⟨?_, ?_, ?_⟩
  · rw [hsfl]
    simp only [List.countP_append]
    rw [runLines_no_complete]
    simp [isResearchComplete]
  · rw [hsfl]
    simp
  · rw [hsfl]
    have hnodup := runLines_names_nodup lines (initialState q) (by simp [initialState])
    have hset := runLines_names_toFinset lines (initialState q) hfree
    have hinit : ((((initialState q).analysts).map (·.name)).toFinset : Finset String) = ∅ := by
      simp [initialState]
    rw [hinit] at hset
    simp only [Finset.empty_union] at hset
    calc (runLines lines (initialState q)).1.analysts.length
        = ((runLines lines (initialState q)).1.analysts.map (·.name)).length := by
          rw [List.length_map]
      _ = ((runLines lines (initialState q)).1.analysts.map (·.name)).dedup.length := by
          rw [List.Nodup.dedup hnodup]
      _ = ((runLines lines (initialState q)).1.analysts.map (·.name)).toFinset.card :=
          (List.card_toFinset _).symm
      _ = (analystNamesOfLines lines).toFinset.card := by rw [hset]
      _ = (analystNamesOfLines lines).dedup.length := List.card_toFinset _

/-- C5 witness: a run with two Analyst events naming the same analyst
"A" terminates with one research-complete event whose roster holds the
one distinct name. -/
theorem C5_witness :
    ((streamFromLangGraph
        [(.batch [.analyst (some { name := "A", role := "R", affiliation := "X",
                                   esgFocus := "F", esgCategories := none })], "t1"),
         (.v5 { data := .analyst { name := "A", role := "R2", affiliation := "X",
                                   esgFocus := "F", esgCategories := none },
                id := none, transient := none }, "t2")]
        (initialState "topic")).2.countP isResearchComplete = 1)
    ∧ ((streamFromLangGraph
        [(.batch [.analyst (some { name := "A", role := "R", affiliation := "X",
                                   esgFocus := "F", esgCategories := none })], "t1"),
         (.v5 { data := .analyst { name := "A", role := "R2", affiliation := "X",
                                   esgFocus := "F", esgCategories := none },
                id := none, transient := none }, "t2")]
        (initialState "topic")).2.getLast?
        = some (.researchComplete .completed
            (streamFromLangGraph
              [(.batch [.analyst (some { name := "A", role := "R", affiliation := "X",
                                         esgFocus := "F", esgCategories := none })], "t1"),
               (.v5 { data := .analyst { name := "A", role := "R2", affiliation := "X",
                                         esgFocus := "F", esgCategories := none },
                      id := none, transient := none }, "t2")]
              (initialState "topic")).1.analysts
            (streamFromLangGraph
              [(.batch [.analyst (some { name := "A", role := "R", affiliation := "X",
                                         esgFocus := "F", esgCategories := none })], "t1"),
               (.v5 { data := .analyst { name := "A", role := "R2", affiliation := "X",
                                         esgFocus := "F", esgCategories := none },
                      id := none, transient := none }, "t2")]
              (initialState "topic")).1.interviews
            (streamFromLangGraph
              [(.batch [.analyst (some { name := "A", role := "R", affiliation := "X",
                                         esgFocus := "F", esgCategories := none })], "t1"),
               (.v5 { data := .analyst { name := "A", role := "R2", affiliation := "X",
                                         esgFocus := "F", esgCategories := none },
                      id := none, transient := none }, "t2")]
              (initialState "topic")).1.sections
            (streamFromLangGraph
              [(.batch [.analyst (some { name := "A", role := "R", affiliation := "X",
                                         esgFocus := "F", esgCategories := none })], "t1"),
               (.v5 { data := .analyst { name := "A", role := "R2", affiliation := "X",
                                         esgFocus := "F", esgCategories := none },
                      id := none, transient := none }, "t2")]
              (initialState "topic")).1.searches))
    ∧ ((streamFromLangGraph
        [(.batch [.analyst (some { name := "A", role := "R", affiliation := "X",
                                   esgFocus := "F", esgCategories := none })], "t1"),
         (.v5 { data := .analyst { name := "A", role := "R2", affiliation := "X",
                                   esgFocus := "F", esgCategories := none },
                id := none, transient := none }, "t2")]
        (initialState "topic")).1.analysts.length
        = (analystNamesOfLines
            [(.batch [.analyst (some { name := "A", role := "R", affiliation := "X",
                                       esgFocus := "F", esgCategories := none })], "t1"),
             (.v5 { data := .analyst { name := "A", role := "R2", affiliation := "X",
                                       esgFocus := "F", esgCategories := none },
                    id := none, transient := none }, "t2")]).dedup.length) :=
  C5_terminal_snapshot "topic"
    [(.batch [.analyst (some { name := "A", role := "R", affiliation := "X",
                               esgFocus := "F", esgCategories := none })], "t1"),
     (.v5 { data := .analyst { name := "A", role := "R2", affiliation := "X",
                               esgFocus := "F", esgCategories := none },
            id := none, transient := none }, "t2")]
    (by decide)
